import Mathlib

/-!
Shallow embedding of the editing core of the `mbures/photoshop` repository
(modern C++ port): the selection mask (`src/modern/.../selection_mask.*`),
the layer blend engine (`layer_blend.cpp`), channel operations
(`channel_operations.cpp`), the command / undo stack machinery
(`command.*`, `undo_stack.cpp`) and the magic-wand selection tool
(`selection_tools.cpp`).

Machine integers (`int`, `std::size_t`, `std::uint8_t`) are modelled as
`Int` / `Nat`; all byte values handled by the code stay in `0..255`, so no
wrap-around occurs on the modelled paths and no explicit `% 256` is needed
except where noted.  `float` arithmetic in the blend engine is modelled as
IEEE-754 binary32: values are dyadic rationals `m * 2 ^ e` and every C++
operator performs one exact operation followed by round-to-nearest, ties
to even, on a 24-bit significand.  C++ functions that can throw are
modelled with `Option`.
-/

namespace PS

/-- `Size` from `image_buffer.h`: `int width, height`. -/
structure Size where
  width : Int
  height : Int
deriving DecidableEq, Repr

/-- `PixelFormat` from `image_buffer.h`. -/
inductive PixelFormat where
  | Gray8
  | RGB8
  | RGBA8
  | CMYK8
deriving DecidableEq, Repr

/-- `bytes_per_pixel` from `image_buffer.cpp`. -/
def bytes_per_pixel : PixelFormat → Nat
  | .Gray8 => 1
  | .RGB8 => 3
  | .RGBA8 => 4
  | .CMYK8 => 4

/-- `ImageBuffer` from `image_buffer.h`: a size, a format and a flat byte
vector (row-major, channels interleaved).  Bytes are `Nat`s in `0..255`. -/
structure ImageBuffer where
  size : Size
  format : PixelFormat
  pixels : List Nat
deriving DecidableEq, Repr

/-- `ImageBuffer::resize` (`image_buffer.cpp`): reallocates and
zero-fills `width*height*bytes_per_pixel` bytes.  Negative products are
clamped to `0` (`Int.toNat`); the C++ `size_t` cast of a negative product
would request an absurd allocation and abort, which no claim exercises. -/
def ImageBuffer.resize (size : Size) (format : PixelFormat) : ImageBuffer :=
  { size := size, format := format,
    pixels := List.replicate ((size.width * size.height).toNat * bytes_per_pixel format) 0 }

/-- `std::clamp(v, lo, hi)`. -/
def clampI (v lo hi : Int) : Int := min (max v lo) hi

/-- The list of integers `lo, lo+1, ..., hi` (empty when `hi < lo`);
models a C++ `for` loop running from `lo` while `≤ hi`. -/
def intRange (lo hi : Int) : List Int :=
  (List.range (hi + 1 - lo).toNat).map (fun (i : Nat) => lo + (i : Int))

/-! ## SelectionMask (`selection_mask.h` / the `selection_mask.cpp` unit) -/

/-- `SelectionMask`: a `Size` plus a flat `uint8` strength array
(`std::vector<std::uint8_t> mask_`), row-major. -/
structure SelectionMask where
  size : Size
  mask : List Nat
deriving DecidableEq, Repr

namespace SelectionMask

/-- `index_for(x, y) = y * size_.width + x`. -/
def index_for (m : SelectionMask) (x y : Int) : Int :=
  y * m.size.width + x

/-- `at_unchecked`: raw `mask_[index_for(x, y)]` access (callers guarantee
bounds; `getD` default 0 is unreachable on guarded paths). -/
def at_unchecked (m : SelectionMask) (x y : Int) : Nat :=
  m.mask.getD (m.index_for x y).toNat 0

/-- `set_unchecked`: raw `mask_[index_for(x, y)] = value`. -/
def set_unchecked (m : SelectionMask) (x y : Int) (value : Nat) : SelectionMask :=
  { m with mask := m.mask.set (m.index_for x y).toNat value }

/-- `SelectionMask::at`: returns 0 for out-of-bounds coordinates. -/
def at' (m : SelectionMask) (x y : Int) : Nat :=
  if x < 0 ∨ y < 0 ∨ m.size.width ≤ x ∨ m.size.height ≤ y then 0
  else m.mask.getD (m.index_for x y).toNat 0

/-- `SelectionMask::set`: ignores out-of-bounds coordinates. -/
def set (m : SelectionMask) (x y : Int) (value : Nat) : SelectionMask :=
  if x < 0 ∨ y < 0 ∨ m.size.width ≤ x ∨ m.size.height ≤ y then m
  else { m with mask := m.mask.set (m.index_for x y).toNat value }

/-- `SelectionMask::resize`: stores the size and zero-fills
`width * height` entries (negative products clamp to 0, see
`ImageBuffer.resize`). -/
def resize (_m : SelectionMask) (size : Size) : SelectionMask :=
  { size := size, mask := List.replicate (size.width * size.height).toNat 0 }

/-- The `SelectionMask(Size)` constructor: default-constructs and resizes. -/
def ofSize (size : Size) : SelectionMask :=
  resize { size := { width := 0, height := 0 }, mask := [] } size

/-- `SelectionMask::fill`: `std::fill` of the whole vector. -/
def fill (m : SelectionMask) (value : Nat) : SelectionMask :=
  { m with mask := List.replicate m.mask.length value }

/-- `SelectionMask::clear` = `fill(0)`. -/
def clear (m : SelectionMask) : SelectionMask :=
  m.fill 0

/-- `SelectionMask::has_selection`: any value `> 0`. -/
def has_selection (m : SelectionMask) : Bool :=
  m.mask.any (fun v => decide (0 < v))

/-- `SelectionMask::invert`: `value = 255 - value` per entry (values are
`uint8`, always `≤ 255`, so `Nat` subtraction agrees with the C++ int
arithmetic). -/
def invert (m : SelectionMask) : SelectionMask :=
  { m with mask := m.mask.map (fun v => 255 - v) }

/-- `SelectionMask::fill_rect`: clip the rectangle to the mask bounds with
`std::clamp`, then loop `yy ∈ [y0, y1)`, `xx ∈ [x0, x1)` doing
`set_unchecked(xx, yy, value)`. -/
def fill_rect (m : SelectionMask) (x y width height : Int) (value : Nat) :
    SelectionMask :=
  if width ≤ 0 ∨ height ≤ 0 then m
  else
    let x0 := clampI x 0 m.size.width
    let y0 := clampI y 0 m.size.height
    let x1 := clampI (x + width) 0 m.size.width
    let y1 := clampI (y + height) 0 m.size.height
    (intRange y0 (y1 - 1)).foldl
      (fun acc yy =>
        (intRange x0 (x1 - 1)).foldl
          (fun acc2 xx => acc2.set_unchecked xx yy value) acc)
      m

/-- The inner double loop of `SelectionMask::grow` for one output pixel:
scan the radius box clipped to the mask (`std::max/std::min` bounds) for a
neighbor with `dx*dx + dy*dy ≤ r*r` whose value is `> 0`; the C++ `break`s
are the short-circuit of `List.any`. -/
def grow_hit (m : SelectionMask) (r x y : Int) : Bool :=
  (intRange (max 0 (y - r)) (min (m.size.height - 1) (y + r))).any fun yy =>
    (intRange (max 0 (x - r)) (min (m.size.width - 1) (x + r))).any fun xx =>
      decide ((xx - x) * (xx - x) + (yy - y) * (yy - y) ≤ r * r) &&
      decide (0 < m.at_unchecked xx yy)

/-- The inner double loop of `SelectionMask::shrink` for one output pixel:
scan the clipped radius box for a neighbor with
`dx*dx + dy*dy ≤ r*r` whose value is `0`. -/
def shrink_hole (m : SelectionMask) (r x y : Int) : Bool :=
  (intRange (max 0 (y - r)) (min (m.size.height - 1) (y + r))).any fun yy =>
    (intRange (max 0 (x - r)) (min (m.size.width - 1) (x + r))).any fun xx =>
      decide ((xx - x) * (xx - x) + (yy - y) * (yy - y) ≤ r * r) &&
      decide (m.at_unchecked xx yy = 0)

/-- `SelectionMask::grow`: for `radius ≤ 0` or an empty mask, no-op; else
build a fresh result vector where `result[index_for(x, y)]` is 255 iff the
box scan hits a selected neighbor, written for every `y < h`, `x < w` in
row-major order (modelled as a row-major tabulation of the same writes;
`mask_.size() = w*h` for masks produced by `resize`). -/
def grow (m : SelectionMask) (radius : Int) : SelectionMask :=
  if radius ≤ 0 ∨ m.mask = [] then m
  else
    { m with
      mask := (List.range m.mask.length).map fun i =>
        if m.grow_hit radius ((i % m.size.width.toNat : Nat) : Int)
            ((i / m.size.width.toNat : Nat) : Int)
        then 255 else 0 }

/-- `SelectionMask::shrink`: like `grow`, but a pixel at 0 stays 0
(`continue` leaves the zero-initialised result entry), and a positive pixel
becomes 0 exactly when the box scan finds an unselected neighbor in
radius. -/
def shrink (m : SelectionMask) (radius : Int) : SelectionMask :=
  if radius ≤ 0 ∨ m.mask = [] then m
  else
    { m with
      mask := (List.range m.mask.length).map fun i =>
        if m.at_unchecked ((i % m.size.width.toNat : Nat) : Int)
            ((i / m.size.width.toNat : Nat) : Int) = 0 then 0
        else if m.shrink_hole radius ((i % m.size.width.toNat : Nat) : Int)
            ((i / m.size.width.toNat : Nat) : Int)
        then 0 else 255 }

/-- Well-formedness maintained by every `SelectionMask` the C++ code
constructs: the vector length matches the size and entries are bytes. -/
def WF (m : SelectionMask) : Prop :=
  0 ≤ m.size.width ∧ 0 ≤ m.size.height ∧
  (m.mask.length : Int) = m.size.width * m.size.height ∧
  ∀ v ∈ m.mask, v ≤ 255

end SelectionMask

/-- A genuinely white (all-255) 10×10 mask. -/
def whiteMask10 : SelectionMask :=
  (SelectionMask.ofSize { width := 10, height := 10 }).fill 255

/-- The C7 scenario run from a freshly constructed 10×10 mask:
`fill_rect(2,2,4,4,255)` then `invert()`. -/
def c7mask : SelectionMask :=
  ((SelectionMask.ofSize { width := 10, height := 10 }).fill_rect
    2 2 4 4 255).invert

/-! ## Layer blend engine (`layer_blend.cpp`, claim C4)

`float` is modelled faithfully as IEEE-754 binary32 with round to
nearest, ties to even: a value is a dyadic rational `m * 2 ^ e` (`F32`),
and every arithmetic operator of the C++ source performs the exact
operation and then rounds the result back to a 24-bit significand
(`rnd32`), exactly as the hardware does for normal values.  Overflow and
underflow to subnormals cannot occur on the byte-driven value range the
blend code exercises (all nonzero magnitudes lie well inside the normal
binary32 range), so they are not modelled, and the `int`-to-`float`
conversion of `opacity` is exact for `|opacity| < 2^24`.  All arithmetic
below is plain `Nat` / `Int` arithmetic, so concrete pixels evaluate by
`decide`. -/

/-- `BlendMode` from `layer.h`. -/
inductive BlendMode where
  | Normal
  | Multiply
  | Screen
  | Overlay
  | Darken
  | Lighten
  | ColorDodge
  | ColorBurn
  | HardLight
  | SoftLight
  | Difference
  | Exclusion
deriving DecidableEq, Repr

/-- An RGBA byte quadruple as passed to `blend_pixel`. -/
structure RGBA where
  r : Nat
  g : Nat
  b : Nat
  a : Nat
deriving DecidableEq, Repr

/-- A binary32 value as a dyadic rational `m * 2 ^ e` (not necessarily
normalised; `rnd32` keeps significands to at most 24 bits, so distinct
representations of the same value never affect a rounded result). -/
structure F32 where
  m : Int
  e : Int
deriving DecidableEq, Repr

/-- Number of binary digits of `n`, written with an explicit fuel bound
so that the kernel can evaluate it (4096 covers every integer arising in
the blend pipeline, whose magnitudes stay below `2 ^ 300`). -/
def bitLen : Nat → Nat → Nat
  | 0, _ => 0
  | fuel + 1, n => if n = 0 then 0 else bitLen fuel (n / 2) + 1

/-- Round the non-negative exact value `n * 2 ^ e` to the nearest
binary32 value, ties to even: a significand wider than 24 bits is
shifted down with round-half-even. -/
def rnd32pos (n : Nat) (e : Int) : F32 :=
  let L := bitLen 4096 n
  if L ≤ 24 then ⟨(n : Int), e⟩
  else
    let sh := L - 24
    let q := n / 2 ^ sh
    let r := n % 2 ^ sh
    let half := 2 ^ (sh - 1)
    let n2 := if half < r ∨ (r = half ∧ q % 2 = 1) then q + 1 else q
    ⟨(n2 : Int), e + (sh : Int)⟩

/-- Round the exact value `m * 2 ^ e` to the nearest binary32 value
(IEEE rounding is symmetric in the sign). -/
def rnd32 (m e : Int) : F32 :=
  if 0 ≤ m then rnd32pos m.toNat e
  else
    let p := rnd32pos (-m).toNat e
    ⟨-p.m, p.e⟩

/-- Binary32 multiplication: exact product, then one rounding. -/
def F32.mul (a b : F32) : F32 := rnd32 (a.m * b.m) (a.e + b.e)

/-- Binary32 addition: exact sum on a common exponent, then one
rounding. -/
def F32.add (a b : F32) : F32 :=
  let e := min a.e b.e
  rnd32 (a.m * 2 ^ (a.e - e).toNat + b.m * 2 ^ (b.e - e).toNat) e

/-- Binary32 subtraction: `a + (-b)` (negation is exact). -/
def F32.sub (a b : F32) : F32 := F32.add a ⟨-b.m, b.e⟩

/-- Binary32 division, correctly rounded: the magnitude quotient is
taken with 64 guard bits plus a sticky bit, which determines the
round-to-nearest-even result exactly.  (A zero divisor is unreachable in
the blend code — every divisor there is guarded to be positive.) -/
def F32.div (a b : F32) : F32 :=
  if b.m = 0 then ⟨0, 0⟩
  else
    let na := a.m.natAbs * 2 ^ 64
    let nb := b.m.natAbs
    let q := na / nb
    let s : Nat := if na % nb = 0 then 0 else 1
    let mag := rnd32pos (2 * q + s) (a.e - b.e - 65)
    if (0 ≤ a.m ∧ 0 < b.m) ∨ (a.m < 0 ∧ b.m < 0) then mag
    else ⟨-mag.m, mag.e⟩

/-- Binary32 `<`: exact comparison of the dyadic values. -/
def F32.blt (a b : F32) : Bool :=
  let e := min a.e b.e
  decide (a.m * 2 ^ (a.e - e).toNat < b.m * 2 ^ (b.e - e).toNat)

/-- `std::min` on binary32 (`b < a ? b : a`; no NaNs arise here). -/
def F32.fmin (a b : F32) : F32 := if F32.blt b a then b else a

/-- `std::max` on binary32 (`a < b ? b : a`; no NaNs arise here). -/
def F32.fmax (a b : F32) : F32 := if F32.blt a b then b else a

/-- `std::abs` on binary32 (exact). -/
def F32.fabs (a : F32) : F32 := ⟨(a.m.natAbs : Int), a.e⟩

/-- Correctly rounded binary32 square root: the magnitude is an integer
square root with at least 64 guard bits plus a sticky bit.  (`std::sqrt`
of a negative value is NaN; the blend code only reaches the call with
`dst ≥ 0.25`, and the non-positive case is mapped to zero here.) -/
def F32.fsqrt (a : F32) : F32 :=
  if a.m ≤ 0 then ⟨0, 0⟩
  else
    let esh : Nat := if a.e % 2 = 0 then 64 else 65
    let n := a.m.toNat * 2 ^ esh
    let s := Nat.sqrt n
    let st : Nat := if s * s = n then 0 else 1
    rnd32pos (2 * s + st) ((a.e - (esh : Int)) / 2 - 1)

/-- The binary32 literal `0.0f`. -/
def f32zero : F32 := ⟨0, 0⟩

/-- The binary32 literal `1.0f`. -/
def f32one : F32 := ⟨1, 0⟩

/-- `to_float`: `val / 255.0f` in binary32 (the `uint8_t`-to-`float`
conversion is exact). -/
def to_float (val : Nat) : F32 := F32.div ⟨(val : Int), 0⟩ ⟨255, 0⟩

/-- `to_byte`: `static_cast<uint8_t>(std::clamp(val * 255.0f, 0.0f,
255.0f))` — one rounded multiplication, `std::clamp` by comparisons,
then the cast truncates the (non-negative) clamped value towards
zero. -/
def to_byte (val : F32) : Nat :=
  let w := F32.mul val ⟨255, 0⟩
  let c := if F32.blt w ⟨0, 0⟩ then (⟨0, 0⟩ : F32)
    else if F32.blt ⟨255, 0⟩ w then (⟨255, 0⟩ : F32) else w
  if 0 ≤ c.e then c.m.natAbs * 2 ^ c.e.toNat
  else c.m.natAbs / 2 ^ (-c.e).toNat

/-- The per-channel blend function selected by the `switch` in
`blend_pixel` (the C++ repeats the call for each of R, G, B; alpha is
not an input).  Each C++ operator is one rounded binary32 operation,
associated exactly as in the source; the C++ guards `src >= 1.0f` and
`src <= 0.0f` are rendered as the negations of `<`. -/
def blend_channel (mode : BlendMode) (src dst : F32) : F32 :=
  match mode with
  | .Normal => src
  | .Multiply => F32.mul src dst
  | .Screen =>
      F32.sub f32one (F32.mul (F32.sub f32one src) (F32.sub f32one dst))
  | .Overlay =>
      if F32.blt dst ⟨1, -1⟩ then F32.mul (F32.mul ⟨2, 0⟩ src) dst
      else
        F32.sub f32one
          (F32.mul (F32.mul ⟨2, 0⟩ (F32.sub f32one src)) (F32.sub f32one dst))
  | .Darken => F32.fmin src dst
  | .Lighten => F32.fmax src dst
  | .ColorDodge =>
      if F32.blt src f32one then
        F32.fmin f32one (F32.div dst (F32.sub f32one src))
      else f32one
  | .ColorBurn =>
      if F32.blt f32zero src then
        F32.sub f32one (F32.fmin f32one (F32.div (F32.sub f32one dst) src))
      else f32zero
  | .HardLight =>
      if F32.blt src ⟨1, -1⟩ then F32.mul (F32.mul ⟨2, 0⟩ src) dst
      else
        F32.sub f32one
          (F32.mul (F32.mul ⟨2, 0⟩ (F32.sub f32one src)) (F32.sub f32one dst))
  | .SoftLight =>
      if F32.blt src ⟨1, -1⟩ then
        F32.sub dst
          (F32.mul (F32.mul (F32.sub f32one (F32.mul ⟨2, 0⟩ src)) dst)
            (F32.sub f32one dst))
      else
        F32.add dst
          (F32.mul (F32.sub (F32.mul ⟨2, 0⟩ src) f32one)
            (F32.sub
              (if F32.blt dst ⟨1, -2⟩ then
                F32.mul
                  (F32.add
                    (F32.mul (F32.sub (F32.mul ⟨16, 0⟩ dst) ⟨12, 0⟩) dst)
                    ⟨4, 0⟩)
                  dst
              else F32.fsqrt dst)
              dst))
  | .Difference => F32.fabs (F32.sub dst src)
  | .Exclusion =>
      F32.sub (F32.add dst src) (F32.mul (F32.mul ⟨2, 0⟩ dst) src)

/-- `sa` in `blend_pixel`: `to_float(src_a) * (opacity / 100.0f)`, each
operation rounded (the `int` `opacity` converts to `float` exactly for
`|opacity| < 2^24`). -/
def src_alpha (a : Nat) (opacity : Int) : F32 :=
  F32.mul (to_float a) (F32.div ⟨opacity, 0⟩ ⟨100, 0⟩)

/-- `out_alpha = sa + da * (1.0f - sa)` in rounded binary32. -/
def out_alpha (sa da : F32) : F32 :=
  F32.add sa (F32.mul da (F32.sub f32one sa))

/-- One output channel of the `out_alpha > 0.0f` branch:
`(blended * sa + dst * da * (1.0f - sa)) / out_alpha`, every operator
rounded, associated as in the source. -/
def mix_channel (blended sa dst da : F32) : F32 :=
  F32.div
    (F32.add (F32.mul blended sa)
      (F32.mul (F32.mul dst da) (F32.sub f32one sa)))
    (out_alpha sa da)

/-- `blend_pixel` from `layer_blend.cpp` (the reference-parameter outputs
`dst_r..dst_a` are the returned quadruple). -/
def blend_pixel (src dst : RGBA) (opacity : Int) (mode : BlendMode) : RGBA :=
  if F32.blt f32zero (out_alpha (src_alpha src.a opacity) (to_float dst.a)) then
    { r := to_byte (mix_channel (blend_channel mode (to_float src.r) (to_float dst.r))
              (src_alpha src.a opacity) (to_float dst.r) (to_float dst.a)),
      g := to_byte (mix_channel (blend_channel mode (to_float src.g) (to_float dst.g))
              (src_alpha src.a opacity) (to_float dst.g) (to_float dst.a)),
      b := to_byte (mix_channel (blend_channel mode (to_float src.b) (to_float dst.b))
              (src_alpha src.a opacity) (to_float dst.b) (to_float dst.a)),
      a := to_byte (out_alpha (src_alpha src.a opacity) (to_float dst.a)) }
  else
    { r := to_byte (to_float dst.r), g := to_byte (to_float dst.g),
      b := to_byte (to_float dst.b), a := to_byte (to_float dst.a) }

/-! ## Layers and `merge_channels_to_layer` (`channel_operations.cpp`, claim C8) -/

/-- `Layer` from `layer.h`. -/
structure Layer where
  name : String
  visible : Bool
  opacity : Int
  blend_mode : BlendMode
  size : Size
  buffer : ImageBuffer
deriving DecidableEq, Repr

/-- The `Layer(Size, name)` constructor (`layer.cpp`): defaults
`visible = true`, `opacity = 100`, `blend_mode = Normal`, an RGBA8 buffer
zero-filled by `ImageBuffer`'s constructor (the extra `std::fill` writes
zeros again). -/
def Layer.ofSize (size : Size) (name : String) : Layer :=
  { name := name, visible := true, opacity := 100, blend_mode := .Normal,
    size := size, buffer := ImageBuffer.resize size .RGBA8 }

/-- The `alpha_layer && (size mismatch)` test of `merge_channels_to_layer`
(null alpha pointer modelled as `none`). -/
def alpha_mismatch (size : Size) : Option Layer → Bool
  | none => false
  | some al =>
      decide (al.size.width ≠ size.width) || decide (al.size.height ≠ size.height)

/-- `merge_channels_to_layer` from `channel_operations.cpp`: on any size
mismatch, return a fresh 1×1 layer named "Merged"; otherwise build the
merged RGBA layer whose pixel `i` is
`(red[4i], green[4i], blue[4i], alpha ? alpha[4i] : 255)` (the loop writes
`dst[4i..4i+3]` for every `i < width*height`, modelled as the same
tabulation). -/
def merge_channels_to_layer (red green blue : Layer) (alpha : Option Layer) :
    Layer :=
  if green.size.width ≠ red.size.width ∨ green.size.height ≠ red.size.height ∨
     blue.size.width ≠ red.size.width ∨ blue.size.height ≠ red.size.height then
    Layer.ofSize { width := 1, height := 1 } "Merged"
  else if alpha_mismatch red.size alpha then
    Layer.ofSize { width := 1, height := 1 } "Merged"
  else
    { Layer.ofSize red.size "Merged" with
      buffer :=
        { size := red.size, format := .RGBA8,
          pixels :=
            (List.range (red.size.width * red.size.height).toNat).flatMap fun i =>
              [red.buffer.pixels.getD (i * 4) 0,
               green.buffer.pixels.getD (i * 4) 0,
               blue.buffer.pixels.getD (i * 4) 0,
               match alpha with
               | some al => al.buffer.pixels.getD (i * 4) 0
               | none => 255] } }

/-! ## Document, commands and the undo stack
(`image_document.h/.cpp`, `command.h` + its `.cpp` unit,
`selection_command.h` unit, `undo_stack.cpp`; claims C1, C2, C3)

The commands the repository defines are `FillCommand` and `ClearCommand`
(channel `ImageCommand`s with full-buffer backup undo) and
`SelectionCommand` (before/after mask snapshots).  The document model
carries what these commands touch: the channel list and the selection
mask (the layer list is not read or written by any command). -/

/-- `ColorMode` from `image_document.h`. -/
inductive ColorMode where
  | Grayscale
  | RGB
  | CMYK
deriving DecidableEq, Repr

/-- `ImageChannel`: a named pixel buffer. -/
structure ImageChannel where
  name : String
  buffer : ImageBuffer
deriving DecidableEq, Repr

/-- `ImageDocument` (channels + selection; see section comment). -/
structure ImageDocument where
  size : Size
  mode : ColorMode
  channels : List ImageChannel
  selection : SelectionMask
deriving DecidableEq, Repr

/-- The constructor parameters of the three command classes. -/
inductive CmdSpec where
  | fill (channel_index : Nat) (value : Nat)
  | clear (channel_index : Nat)
  | selection (before after : SelectionMask)
deriving DecidableEq, Repr

/-- `ImageCommand::ChannelBackup`. -/
structure ChannelBackup where
  index : Nat
  buffer : ImageBuffer
deriving DecidableEq, Repr

/-- A command object together with its mutable `saved_channels_` state
(`SelectionCommand` keeps its snapshots inside its `CmdSpec` and never
uses `saved_channels_`). -/
structure StoredCmd where
  spec : CmdSpec
  saved_channels : List ChannelBackup
deriving DecidableEq, Repr

/-- Placeholder for unreachable `getD` defaults. -/
def dummyChannel : ImageChannel :=
  { name := "", buffer := { size := { width := 0, height := 0 }, format := .RGB8, pixels := [] } }

/-- Placeholder for unreachable `getD` defaults. -/
def dummyCmd : StoredCmd := { spec := .clear 0, saved_channels := [] }

/-- `ImageCommand::save_channel`: out-of-range indices are skipped;
otherwise append a backup holding a byte-for-byte copy of the channel's
buffer (C++ allocates a fresh buffer of the same size/format and
`memcpy`s `byte_size()` bytes, which copies the whole pixel vector). -/
def save_channel (doc : ImageDocument) (index : Nat)
    (saved : List ChannelBackup) : List ChannelBackup :=
  if index < doc.channels.length then
    saved ++ [{ index := index, buffer := (doc.channels.getD index dummyChannel).buffer }]
  else saved

/-- The `std::memset(channel.buffer.data(), value, byte_size())` of
`FillCommand::execute` / `ClearCommand::execute`. -/
def memset_channel (doc : ImageDocument) (index : Nat) (value : Nat) :
    ImageDocument :=
  { doc with
    channels := doc.channels.set index
      (let ch := doc.channels.getD index dummyChannel
       { ch with buffer :=
          { ch.buffer with
            pixels := List.replicate ch.buffer.pixels.length value } }) }

/-- One step of `ImageCommand::restore_channels`: skip a stale index, else
`memcpy` of `backup.byte_size()` bytes over the start of the channel's
buffer (the remainder, empty whenever the lengths agree, stays). -/
def restore_backup (doc : ImageDocument) (b : ChannelBackup) : ImageDocument :=
  if b.index < doc.channels.length then
    { doc with
      channels := doc.channels.set b.index
        (let ch := doc.channels.getD b.index dummyChannel
         { ch with buffer :=
            { ch.buffer with
              pixels := b.buffer.pixels ++
                ch.buffer.pixels.drop b.buffer.pixels.length } }) }
  else doc

/-- `ImageCommand::restore_channels`: restores the saved backups in
order. -/
def restore_channels (saved : List ChannelBackup) (doc : ImageDocument) :
    ImageDocument :=
  saved.foldl restore_backup doc

/-- `Command::execute` for the three command kinds, threading the command
object's own state.  `FillCommand::execute`/`ClearCommand::execute` call
`save_channel` (a no-op for an out-of-range index) and then
`Document::channel_at`, which throws `std::out_of_range` for a bad index
before any byte is written — modelled as `none` with both the document
and the stack untouched by the caller.  `SelectionCommand::execute`
assigns the `after_` snapshot to the document's selection. -/
def executeStored (sc : StoredCmd) (doc : ImageDocument) :
    Option (StoredCmd × ImageDocument) :=
  match sc.spec with
  | .fill idx v =>
      if idx < doc.channels.length then
        some ({ sc with saved_channels := save_channel doc idx sc.saved_channels },
              memset_channel doc idx v)
      else none
  | .clear idx =>
      if idx < doc.channels.length then
        some ({ sc with saved_channels := save_channel doc idx sc.saved_channels },
              memset_channel doc idx 0)
      else none
  | .selection _ after => some (sc, { doc with selection := after })

/-- `Command::undo`: `ImageCommand::undo` restores the saved channels;
`SelectionCommand::undo` assigns the `before_` snapshot. -/
def undoCmd (sc : StoredCmd) (doc : ImageDocument) : ImageDocument :=
  match sc.spec with
  | .fill _ _ => restore_channels sc.saved_channels doc
  | .clear _ => restore_channels sc.saved_channels doc
  | .selection before _ => { doc with selection := before }

/-- `UndoStack` state (`undo_stack.h`). -/
structure UndoStack where
  commands : List StoredCmd
  current_index : Nat
  max_depth : Nat
deriving DecidableEq, Repr

/-- `UndoStack::undo_count`. -/
def UndoStack.undo_count (s : UndoStack) : Nat := s.current_index

/-- `UndoStack::redo_count`. -/
def UndoStack.redo_count (s : UndoStack) : Nat :=
  s.commands.length - s.current_index

/-- The stack together with the document its commands mutate. -/
structure EditorState where
  stack : UndoStack
  doc : ImageDocument
deriving DecidableEq, Repr

/-- `UndoStack::trim_to_max_depth`: drop the oldest commands when over
capacity and clamp `current_index_` to the new size. -/
def trim_to_max_depth (s : UndoStack) : UndoStack :=
  if s.commands.length ≤ s.max_depth then s
  else
    { s with
      commands := s.commands.drop (s.commands.length - s.max_depth),
      current_index := min s.current_index
        (s.commands.drop (s.commands.length - s.max_depth)).length }

/-- `UndoStack::push`: execute the command (an exception propagates before
any stack mutation), erase the undone tail, append, set
`current_index_ = commands_.size()`, trim.  (The C++ null-pointer early
return has no counterpart: `CmdSpec` has no null.) -/
def push (st : EditorState) (spec : CmdSpec) : EditorState :=
  match executeStored { spec := spec, saved_channels := [] } st.doc with
  | none => st
  | some (sc, doc') =>
      { stack := trim_to_max_depth
          { commands := st.stack.commands.take st.stack.current_index ++ [sc],
            current_index :=
              (st.stack.commands.take st.stack.current_index ++ [sc]).length,
            max_depth := st.stack.max_depth },
        doc := doc' }

/-- `UndoStack::undo`: no-op unless `can_undo()`
(`current_index_ > 0 && !commands_.empty()`); else decrement the index and
run that command's `undo()`. -/
def undo (st : EditorState) : EditorState :=
  if 0 < st.stack.current_index ∧ st.stack.commands ≠ [] then
    { stack := { st.stack with current_index := st.stack.current_index - 1 },
      doc := undoCmd
        (st.stack.commands.getD (st.stack.current_index - 1) dummyCmd) st.doc }
  else st

/-- `UndoStack::redo`: no-op unless `can_redo()`
(`current_index_ < commands_.size()`); else run `redo()` on the command at
`current_index_` (the default `Command::redo` re-invokes `execute()`,
mutating the stored command's backups) and increment the index.  An
exception from `execute` propagates before the increment, with nothing
mutated. -/
def redo (st : EditorState) : EditorState :=
  if st.stack.current_index < st.stack.commands.length then
    match executeStored
        (st.stack.commands.getD st.stack.current_index dummyCmd) st.doc with
    | none => st
    | some (sc', doc') =>
        { stack := { st.stack with
            commands := st.stack.commands.set st.stack.current_index sc',
            current_index := st.stack.current_index + 1 },
          doc := doc' }
  else st

/-- `UndoStack::clear`. -/
def clearHistory (st : EditorState) : EditorState :=
  { st with stack := { st.stack with commands := [], current_index := 0 } }

/-- `UndoStack::set_max_depth`: store the new depth, then trim. -/
def set_max_depth (st : EditorState) (depth : Nat) : EditorState :=
  { st with stack := trim_to_max_depth { st.stack with max_depth := depth } }

/-- A freshly constructed `UndoStack(max_depth)` over a document. -/
def freshState (depth : Nat) (doc : ImageDocument) : EditorState :=
  { stack := { commands := [], current_index := 0, max_depth := depth },
    doc := doc }

/-- The five public mutating operations of `UndoStack`. -/
inductive StackOp where
  | push (spec : CmdSpec)
  | undo
  | redo
  | clear
  | setMaxDepth (depth : Nat)
deriving DecidableEq, Repr

def applyOp (st : EditorState) : StackOp → EditorState
  | .push spec => push st spec
  | .undo => undo st
  | .redo => redo st
  | .clear => clearHistory st
  | .setMaxDepth d => set_max_depth st d

def applyOps (ops : List StackOp) (st : EditorState) : EditorState :=
  ops.foldl applyOp st

/-- `n` successive `undo()` calls (`undoN (n+1) st` performs one more undo
after `undoN n st`). -/
def undoN : Nat → EditorState → EditorState
  | 0, st => st
  | n + 1, st => undo (undoN n st)

/-- `cmds.foldl push`: pushing a whole command list in order. -/
def pushAll (st : EditorState) (cmds : List CmdSpec) : EditorState :=
  cmds.foldl push st

/-- The execution trace of pushing `cmds` over `doc`: the stored command
objects of the pushes that execute successfully (in order) and the final
document. -/
def runStored : List CmdSpec → ImageDocument → List StoredCmd × ImageDocument
  | [], doc => ([], doc)
  | c :: rest, doc =>
      match executeStored { spec := c, saved_channels := [] } doc with
      | none => runStored rest doc
      | some (sc, doc') =>
          ((sc :: (runStored rest doc').1), (runStored rest doc').2)

/-! ## Claim C3: undo-stack invariant and silent no-ops -/

/-- The `UndoStack` invariant `current_index ≤ commands.size()`
(the lower bound is `Nat`-inherent). -/
def StackInv (st : EditorState) : Prop :=
  st.stack.current_index ≤ st.stack.commands.length

/-- A 1×1 RGB document with one channel holding bytes `[0, 0, 0]`. -/
def c1doc : ImageDocument :=
  { size := { width := 1, height := 1 }, mode := .RGB,
    channels := [{ name := "Red",
                   buffer := { size := { width := 1, height := 1 },
                               format := .RGB8,
                               pixels := [0, 0, 0] } }],
    selection := SelectionMask.ofSize { width := 1, height := 1 } }

/-! ## Magic-wand flood fill (`selection_tools.cpp`, claim C5) -/

/-- `Point` from `tool.h`: integer pixel coordinates. -/
structure Point where
  x : Int
  y : Int
deriving DecidableEq, Repr

/-- `RGBColor` from `selection_tools.cpp` (zero-initialised ints). -/
structure RGBColor where
  r : Int
  g : Int
  b : Int
deriving DecidableEq, Repr

/-- Byte `i` of channel `c`'s buffer (raw `data()[i]` access; the guarded
callers keep `i` in range). -/
def channel_byte (doc : ImageDocument) (c : Nat) (i : Int) : Int :=
  ((doc.channels.getD c dummyChannel).buffer.pixels.getD i.toNat 0 : Nat)

/-- `sample_color` from `selection_tools.cpp`: bounds/empty guard returns
black; per color mode, read one byte per channel at
`index * bytes_per_pixel(channels[0].format)` (RGB), replicate the single
channel (Grayscale), or convert CMYK with
`r = (255-c)*(255-k)/255` etc. (all operands are byte values, so the
truncating C++ `int` division is `Int` division on non-negatives). -/
def sample_color (doc : ImageDocument) (x y : Int) : RGBColor :=
  if doc.channels = [] ∨ x < 0 ∨ y < 0 ∨ doc.size.width ≤ x ∨
      doc.size.height ≤ y then
    { r := 0, g := 0, b := 0 }
  else
    let index := y * doc.size.width + x
    let bytes : Int :=
      (bytes_per_pixel (doc.channels.getD 0 dummyChannel).buffer.format : Nat)
    if doc.mode = ColorMode.Grayscale ∧ 1 ≤ doc.channels.length then
      let v := channel_byte doc 0 (index * bytes)
      { r := v, g := v, b := v }
    else if doc.mode = ColorMode.RGB ∧ 3 ≤ doc.channels.length then
      { r := channel_byte doc 0 (index * bytes),
        g := channel_byte doc 1 (index * bytes),
        b := channel_byte doc 2 (index * bytes) }
    else if doc.mode = ColorMode.CMYK ∧ 4 ≤ doc.channels.length then
      let c := channel_byte doc 0 (index * bytes)
      let m := channel_byte doc 1 (index * bytes)
      let yv := channel_byte doc 2 (index * bytes)
      let k := channel_byte doc 3 (index * bytes)
      { r := (255 - c) * (255 - k) / 255,
        g := (255 - m) * (255 - k) / 255,
        b := (255 - yv) * (255 - k) / 255 }
    else
      { r := 0, g := 0, b := 0 }

/-- The `while (!queue.empty())` loop of `MagicWandTool::begin_stroke`:
pop; discard out-of-bounds points; skip visited; mark visited; skip when
the sum of absolute per-channel differences to the seed color exceeds the
tolerance; else select the pixel and enqueue its four 4-connected
neighbors (FIFO).  `fuel` bounds the modelled iterations; `none` means the
fuel ran out before the queue emptied, so a `some` result is exactly what
the unbounded C++ loop computes. -/
def wandLoop (doc : ImageDocument) (target : RGBColor) (tolerance : Int) :
    Nat → List Bool → List Point → SelectionMask → Option SelectionMask
  | _, _, [], sel => some sel
  | 0, _, _ :: _, _ => none
  | fuel + 1, visited, current :: queue, sel =>
      if current.x < 0 ∨ current.y < 0 ∨ doc.size.width ≤ current.x ∨
          doc.size.height ≤ current.y then
        wandLoop doc target tolerance fuel visited queue sel
      else
        let idx := (current.y * doc.size.width + current.x).toNat
        if visited.getD idx false then
          wandLoop doc target tolerance fuel visited queue sel
        else
          let visited2 := visited.set idx true
          let color := sample_color doc current.x current.y
          let diff := |color.r - target.r| + |color.g - target.g| +
            |color.b - target.b|
          if tolerance < diff then
            wandLoop doc target tolerance fuel visited2 queue sel
          else
            wandLoop doc target tolerance fuel visited2
              (queue ++ [{ x := current.x + 1, y := current.y },
                         { x := current.x - 1, y := current.y },
                         { x := current.x, y := current.y + 1 },
                         { x := current.x, y := current.y - 1 }])
              (sel.set current.x current.y 255)

/-- `MagicWandTool::begin_stroke`: clear a copy of the selection; an
out-of-bounds seed returns with the document untouched; otherwise sample
the seed color, clamp the tool `size` to `0..255` as the tolerance, run
the breadth-first flood fill from the seed, and store the resulting mask
as the document's selection. -/
def magic_wand_begin_stroke (doc : ImageDocument) (pt : Point) (size : Int)
    (fuel : Nat) : Option ImageDocument :=
  if pt.x < 0 ∨ pt.y < 0 ∨ doc.size.width ≤ pt.x ∨ doc.size.height ≤ pt.y then
    some doc
  else
    let target := sample_color doc pt.x pt.y
    let tolerance := clampI size 0 255
    let visited :=
      List.replicate (doc.size.width * doc.size.height).toNat false
    match wandLoop doc target tolerance fuel visited [pt]
        doc.selection.clear with
    | none => none
    | some sel => some { doc with selection := sel }

/-- The 4×4 RGB document that is half red (rows 0–1, (255,0,0)) and half
blue (rows 2–3, (0,0,255)): three RGB8 channel planes sampled at byte
`index*3`. -/
def c5doc : ImageDocument :=
  { size := { width := 4, height := 4 }, mode := .RGB,
    channels :=
      [{ name := "Red",
         buffer := { size := { width := 4, height := 4 }, format := .RGB8,
                     pixels := List.replicate 24 255 ++ List.replicate 24 0 } },
       { name := "Green",
         buffer := { size := { width := 4, height := 4 }, format := .RGB8,
                     pixels := List.replicate 48 0 } },
       { name := "Blue",
         buffer := { size := { width := 4, height := 4 }, format := .RGB8,
                     pixels := List.replicate 24 0 ++ List.replicate 24 255 } }],
    selection := SelectionMask.ofSize { width := 4, height := 4 } }

/-- The mask the scenario should produce: the 8 red pixels (rows 0–1)
selected, the 8 blue pixels not. -/
def c5expected : SelectionMask :=
  { size := { width := 4, height := 4 },
    mask := List.replicate 8 255 ++ List.replicate 8 0 }

theorem mem_intRange {lo hi a : Int} : a ∈ intRange lo hi ↔ lo ≤ a ∧ a ≤ hi := by
  rw [intRange, List.mem_map]
  constructor
  · rintro ⟨i, hi', rfl⟩
    rw [List.mem_range] at hi'
    omega
  · intro h
    refine ⟨(a - lo).toNat, ?_, ?_⟩
    · rw [List.mem_range]
      omega
    · omega

/-! ## Theorems for claims C6, C7, C9 -/

/-- Claim C6: for every `SelectionMask` whose entries are bytes (which all
masks built by the code are), `invert` applied twice returns the mask to
exactly its original contents, because `invert` maps each value `v` to
`255 - v`. -/
theorem claim_C6_invert_involution (m : SelectionMask)
    (h : ∀ v ∈ m.mask, v ≤ 255) :
    m.invert.invert = m := by
  cases m with
  | mk size mask =>
    simp only [SelectionMask.invert, List.map_map, SelectionMask.mk.injEq, true_and]
    have step : ∀ v ∈ mask, ((fun v => 255 - v) ∘ fun v => 255 - v) v = id v := by
      intro v hv
      have := h v hv
      simp only [Function.comp_apply, id_eq]
      omega
    rw [List.map_congr_left step, List.map_id]

/-- Claim C6 witness at a concrete mask. -/
theorem claim_C6_witness :
    let m : SelectionMask :=
      { size := { width := 2, height := 2 }, mask := [0, 17, 255, 3] }
    m.invert.invert = m :=
  claim_C6_invert_involution _ (by decide)

/-- Claim C7 counterexample: starting from a literally white (all-255)
10×10 mask, `fill_rect(2,2,4,4,255)` is a no-op and `invert()` turns every
pixel to 0, so the boundary pixel (0,0) is 0, not 255 as the claim
states. -/
theorem claim_C7_counterexample :
    ¬ (((whiteMask10.fill_rect 2 2 4 4 255).invert).at' 0 0 = 255) := by
  decide

/-- Claim C7 (amended): starting from a freshly constructed (all
unselected, value 0) 10×10 mask, `fill_rect(2,2,4,4,255)` then `invert()`
yields exactly the 16 interior pixels (x, y ∈ 2..5) at 0 and the 84
remaining pixels at 255. -/
theorem claim_C7_amended :
    c7mask.mask = (List.range 100).map (fun i =>
      if 2 ≤ i % 10 ∧ i % 10 ≤ 5 ∧ 2 ≤ i / 10 ∧ i / 10 ≤ 5 then 0 else 255) ∧
    (c7mask.mask.filter (fun v => v == 0)).length = 16 ∧
    (c7mask.mask.filter (fun v => v == 255)).length = 84 := by
  decide

/-- Claim C9: the public accessors are total: for every mask and every
coordinate outside `[0, width) × [0, height)`, `at` returns 0 and `set`
leaves the mask entirely unchanged. -/
theorem claim_C9_accessors_total (m : SelectionMask) (x y : Int) (v : Nat)
    (h : x < 0 ∨ y < 0 ∨ m.size.width ≤ x ∨ m.size.height ≤ y) :
    m.at' x y = 0 ∧ m.set x y v = m := by
  refine ⟨?_, ?_⟩
  · rw [SelectionMask.at', if_pos h]
  · rw [SelectionMask.set, if_pos h]

/-- Claim C9 witness at concrete out-of-bounds coordinates. -/
theorem claim_C9_witness :
    let m : SelectionMask :=
      { size := { width := 2, height := 2 }, mask := [9, 8, 7, 6] }
    m.at' 5 0 = 0 ∧ m.set 5 0 44 = m :=
  claim_C9_accessors_total _ 5 0 44 (by decide)

/-! ## Claim C10: grow / shrink -/

theorem getD_range_map (f : Nat → Nat) {n i : Nat} (h : i < n) (d : Nat) :
    ((List.range n).map f).getD i d = f i := by
  rw [List.getD_eq_getElem?_getD, List.getElem?_map, List.getElem?_range h]
  rfl

theorem row_major_recover {w x y : Nat} (hx : x < w) :
    (y * w + x) % w = x ∧ (y * w + x) / w = y := by
  rw [Nat.mul_comm y w]
  constructor
  · rw [Nat.mul_add_mod]
    exact Nat.mod_eq_of_lt hx
  · rw [Nat.mul_add_div (by omega : 0 < w), Nat.div_eq_of_lt hx]
    omega

theorem abs_le_of_sq_le {a r : Int} (hr : 0 ≤ r) (h : a * a ≤ r * r) :
    -r ≤ a ∧ a ≤ r := by
  constructor <;> nlinarith

theorem SelectionMask.at_eq_unchecked {m : SelectionMask} {x y : Int}
    (hx0 : 0 ≤ x) (hx : x < m.size.width) (hy0 : 0 ≤ y) (hy : y < m.size.height) :
    m.at' x y = m.at_unchecked x y := by
  rw [SelectionMask.at', if_neg (by omega)]
  rfl

/-- The clipped box scan of `grow`/`shrink` ranges over exactly the
in-bounds pixels within Euclidean radius `r` of `(x, y)` (for an in-bounds
center): the box clip never cuts off a pixel that satisfies
`dx² + dy² ≤ r²`. -/
theorem box_scan_iff {w h r x y xx yy : Int} (hr : 0 ≤ r)
    (hx0 : 0 ≤ x) (hx : x < w) (hy0 : 0 ≤ y) (hy : y < h) :
    ((max 0 (y - r) ≤ yy ∧ yy ≤ min (h - 1) (y + r)) ∧
     (max 0 (x - r) ≤ xx ∧ xx ≤ min (w - 1) (x + r)) ∧
     (xx - x) * (xx - x) + (yy - y) * (yy - y) ≤ r * r) ↔
    (0 ≤ xx ∧ xx < w ∧ 0 ≤ yy ∧ yy < h ∧
     (xx - x) * (xx - x) + (yy - y) * (yy - y) ≤ r * r) := by
  constructor
  · rintro ⟨⟨hy1, hy2⟩, ⟨hx1, hx2⟩, hd⟩
    exact ⟨by omega, by omega, by omega, by omega, hd⟩
  · rintro ⟨h1, h2, h3, h4, hd⟩
    have hdx : (xx - x) * (xx - x) ≤ r * r := by
      nlinarith [mul_self_nonneg (yy - y)]
    have hdy : (yy - y) * (yy - y) ≤ r * r := by
      nlinarith [mul_self_nonneg (xx - x)]
    have hax := abs_le_of_sq_le hr hdx
    have hay := abs_le_of_sq_le hr hdy
    exact ⟨⟨by omega, by omega⟩, ⟨by omega, by omega⟩, hd⟩

theorem grow_hit_iff {m : SelectionMask} {r x y : Int} (hr : 0 ≤ r)
    (hx0 : 0 ≤ x) (hx : x < m.size.width) (hy0 : 0 ≤ y) (hy : y < m.size.height) :
    m.grow_hit r x y = true ↔
      ∃ xx yy : Int, 0 ≤ xx ∧ xx < m.size.width ∧ 0 ≤ yy ∧ yy < m.size.height ∧
        (xx - x) * (xx - x) + (yy - y) * (yy - y) ≤ r * r ∧
        0 < m.at_unchecked xx yy := by
  rw [SelectionMask.grow_hit, List.any_eq_true]
  constructor
  · rintro ⟨yy, hyy, hinner⟩
    rw [List.any_eq_true] at hinner
    rcases hinner with ⟨xx, hxx, hcond⟩
    rw [mem_intRange] at hyy hxx
    rw [Bool.and_eq_true, decide_eq_true_eq, decide_eq_true_eq] at hcond
    have := (box_scan_iff hr hx0 hx hy0 hy).mp ⟨hyy, hxx, hcond.1⟩
    exact ⟨xx, yy, this.1, this.2.1, this.2.2.1, this.2.2.2.1, this.2.2.2.2,
      hcond.2⟩
  · rintro ⟨xx, yy, h1, h2, h3, h4, hd, hv⟩
    have := (box_scan_iff hr hx0 hx hy0 hy).mpr ⟨h1, h2, h3, h4, hd⟩
    refine ⟨yy, mem_intRange.mpr this.1, ?_⟩
    rw [List.any_eq_true]
    exact ⟨xx, mem_intRange.mpr this.2.1,
      by rw [Bool.and_eq_true, decide_eq_true_eq, decide_eq_true_eq]
         exact ⟨this.2.2, hv⟩⟩

theorem shrink_hole_iff {m : SelectionMask} {r x y : Int} (hr : 0 ≤ r)
    (hx0 : 0 ≤ x) (hx : x < m.size.width) (hy0 : 0 ≤ y) (hy : y < m.size.height) :
    m.shrink_hole r x y = true ↔
      ∃ xx yy : Int, 0 ≤ xx ∧ xx < m.size.width ∧ 0 ≤ yy ∧ yy < m.size.height ∧
        (xx - x) * (xx - x) + (yy - y) * (yy - y) ≤ r * r ∧
        m.at_unchecked xx yy = 0 := by
  rw [SelectionMask.shrink_hole, List.any_eq_true]
  constructor
  · rintro ⟨yy, hyy, hinner⟩
    rw [List.any_eq_true] at hinner
    rcases hinner with ⟨xx, hxx, hcond⟩
    rw [mem_intRange] at hyy hxx
    rw [Bool.and_eq_true, decide_eq_true_eq, decide_eq_true_eq] at hcond
    have := (box_scan_iff hr hx0 hx hy0 hy).mp ⟨hyy, hxx, hcond.1⟩
    exact ⟨xx, yy, this.1, this.2.1, this.2.2.1, this.2.2.2.1, this.2.2.2.2,
      hcond.2⟩
  · rintro ⟨xx, yy, h1, h2, h3, h4, hd, hv⟩
    have := (box_scan_iff hr hx0 hx hy0 hy).mpr ⟨h1, h2, h3, h4, hd⟩
    refine ⟨yy, mem_intRange.mpr this.1, ?_⟩
    rw [List.any_eq_true]
    exact ⟨xx, mem_intRange.mpr this.2.1,
      by rw [Bool.and_eq_true, decide_eq_true_eq, decide_eq_true_eq]
         exact ⟨this.2.2, hv⟩⟩

/-- For an in-bounds pixel of a well-formed mask, reading the grow/shrink
tabulation at `index_for(x, y)` recovers the per-pixel function. -/
theorem tabulation_at {m : SelectionMask} (hwf : m.WF) {x y : Int}
    (f : Nat → Nat)
    (hx0 : 0 ≤ x) (hx : x < m.size.width) (hy0 : 0 ≤ y) (hy : y < m.size.height) :
    ({ m with mask := (List.range m.mask.length).map f } : SelectionMask).at'
        x y =
      f (y * m.size.width + x).toNat ∧
    ((y * m.size.width + x).toNat % m.size.width.toNat = x.toNat ∧
     (y * m.size.width + x).toNat / m.size.width.toNat = y.toNat) ∧
    (y * m.size.width + x).toNat < m.mask.length := by
  obtain ⟨hw0, hh0, hlen, -⟩ := hwf
  have hwcast : (m.size.width.toNat : Int) = m.size.width := Int.toNat_of_nonneg hw0
  have hhcast : (m.size.height.toNat : Int) = m.size.height := Int.toNat_of_nonneg hh0
  have hxw : x.toNat < m.size.width.toNat := by omega
  have hyh : y.toNat < m.size.height.toNat := by omega
  have hidx : (y * m.size.width + x).toNat = y.toNat * m.size.width.toNat + x.toNat := by
    have h1 : y * m.size.width + x =
        ((y.toNat * m.size.width.toNat + x.toNat : Nat) : Int) := by
      push_cast
      rw [Int.toNat_of_nonneg hy0, Int.toNat_of_nonneg hx0, hwcast]
    rw [h1, Int.toNat_natCast]
  have hml : m.mask.length = m.size.width.toNat * m.size.height.toNat := by
    have h2 : (m.mask.length : Int) =
        ((m.size.width.toNat * m.size.height.toNat : Nat) : Int) := by
      rw [hlen]
      push_cast
      rw [hwcast, hhcast]
    exact_mod_cast h2
  have hlt : (y * m.size.width + x).toNat < m.mask.length := by
    rw [hidx, hml]
    calc y.toNat * m.size.width.toNat + x.toNat
        < y.toNat * m.size.width.toNat + m.size.width.toNat := by omega
      _ = (y.toNat + 1) * m.size.width.toNat := by ring
      _ ≤ m.size.height.toNat * m.size.width.toNat :=
          Nat.mul_le_mul_right _ (by omega)
      _ = m.size.width.toNat * m.size.height.toNat := Nat.mul_comm _ _
  refine ⟨?_, ?_, hlt⟩
  · rw [SelectionMask.at', if_neg (by dsimp only; omega)]
    show ((List.range m.mask.length).map f).getD (y * m.size.width + x).toNat 0 = _
    exact getD_range_map f hlt 0
  · rw [hidx]
    exact row_major_recover hxw

/-- Claim C10: for every well-formed `SelectionMask` and radius `≥ 1`,
`grow` and `shrink` produce binary masks (every entry 0 or 255), and for
every in-bounds pixel: `grow` yields 255 exactly when some in-bounds pixel
within Euclidean radius `r` (including itself) is `> 0`, and `shrink`
yields 255 exactly when the pixel is `> 0` and no in-bounds pixel within
radius `r` is `0`. -/
theorem claim_C10_grow_shrink_binary (m : SelectionMask) (r : Int)
    (hwf : m.WF) (hr : 1 ≤ r) :
    (∀ v ∈ (m.grow r).mask, v = 0 ∨ v = 255) ∧
    (∀ v ∈ (m.shrink r).mask, v = 0 ∨ v = 255) ∧
    (∀ x y : Int, 0 ≤ x → x < m.size.width → 0 ≤ y → y < m.size.height →
      ((m.grow r).at' x y = 255 ↔
        ∃ xx yy : Int, 0 ≤ xx ∧ xx < m.size.width ∧ 0 ≤ yy ∧ yy < m.size.height ∧
          (xx - x) * (xx - x) + (yy - y) * (yy - y) ≤ r * r ∧ 0 < m.at' xx yy)) ∧
    (∀ x y : Int, 0 ≤ x → x < m.size.width → 0 ≤ y → y < m.size.height →
      ((m.shrink r).at' x y = 255 ↔
        (0 < m.at' x y ∧
          ∀ xx yy : Int,
            0 ≤ xx → xx < m.size.width → 0 ≤ yy → yy < m.size.height →
            (xx - x) * (xx - x) + (yy - y) * (yy - y) ≤ r * r →
            m.at' xx yy ≠ 0))) := by
  have hr0 : 0 ≤ r := by omega
  have hguard : ¬ (r ≤ 0 ∨ m.mask = []) ∨ m.mask = [] := by
    by_cases hm : m.mask = []
    · exact Or.inr hm
    · exact Or.inl (by
        push_neg
        exact ⟨by omega, hm⟩)
  refine ⟨?_, ?_, ?_, ?_⟩
  · intro v hv
    rw [SelectionMask.grow] at hv
    split at hv
    · rcases ‹r ≤ 0 ∨ m.mask = []› with h | h
      · omega
      · rw [h] at hv
        exact absurd hv (List.not_mem_nil v)
    · rcases List.mem_map.1 hv with ⟨i, -, rfl⟩
      split <;> simp
  · intro v hv
    rw [SelectionMask.shrink] at hv
    split at hv
    · rcases ‹r ≤ 0 ∨ m.mask = []› with h | h
      · omega
      · rw [h] at hv
        exact absurd hv (List.not_mem_nil v)
    · rcases List.mem_map.1 hv with ⟨i, -, rfl⟩
      split
      · simp
      · split <;> simp
  · intro x y hx0 hx hy0 hy
    have hmne : m.mask ≠ [] := by
      intro hnil
      obtain ⟨hw0, hh0, hlen, -⟩ := hwf
      rw [hnil] at hlen
      simp only [List.length_nil, Nat.cast_zero] at hlen
      nlinarith
    rw [SelectionMask.grow, if_neg (by push_neg; exact ⟨by omega, hmne⟩)]
    obtain ⟨hat, ⟨hmod, hdiv⟩, -⟩ := tabulation_at hwf
      (f := fun i =>
        if m.grow_hit r ((i % m.size.width.toNat : Nat) : Int)
            ((i / m.size.width.toNat : Nat) : Int) then 255 else 0)
      hx0 hx hy0 hy
    rw [hat, hmod, hdiv, Int.toNat_of_nonneg hx0, Int.toNat_of_nonneg hy0]
    constructor
    · intro h255
      have hhit : m.grow_hit r x y = true := by
        by_contra hno
        rw [if_neg (by simpa using hno)] at h255
        omega
      rcases (grow_hit_iff hr0 hx0 hx hy0 hy).mp hhit with
        ⟨xx, yy, h1, h2, h3, h4, hd, hv⟩
      exact ⟨xx, yy, h1, h2, h3, h4, hd, by
        rwa [SelectionMask.at_eq_unchecked h1 h2 h3 h4]⟩
    · rintro ⟨xx, yy, h1, h2, h3, h4, hd, hv⟩
      rw [SelectionMask.at_eq_unchecked h1 h2 h3 h4] at hv
      rw [if_pos ((grow_hit_iff hr0 hx0 hx hy0 hy).mpr
        ⟨xx, yy, h1, h2, h3, h4, hd, hv⟩)]
  · intro x y hx0 hx hy0 hy
    have hmne : m.mask ≠ [] := by
      intro hnil
      obtain ⟨hw0, hh0, hlen, -⟩ := hwf
      rw [hnil] at hlen
      simp only [List.length_nil, Nat.cast_zero] at hlen
      nlinarith
    rw [SelectionMask.shrink, if_neg (by push_neg; exact ⟨by omega, hmne⟩)]
    obtain ⟨hat, ⟨hmod, hdiv⟩, -⟩ := tabulation_at hwf
      (f := fun i =>
        if m.at_unchecked ((i % m.size.width.toNat : Nat) : Int)
            ((i / m.size.width.toNat : Nat) : Int) = 0 then 0
        else if m.shrink_hole r ((i % m.size.width.toNat : Nat) : Int)
            ((i / m.size.width.toNat : Nat) : Int) then 0 else 255)
      hx0 hx hy0 hy
    rw [hat, hmod, hdiv, Int.toNat_of_nonneg hx0, Int.toNat_of_nonneg hy0]
    rw [SelectionMask.at_eq_unchecked hx0 hx hy0 hy]
    constructor
    · intro h255
      by_cases hz : m.at_unchecked x y = 0
      · rw [if_pos hz] at h255
        omega
      · rw [if_neg hz] at h255
        have hnohole : ¬ m.shrink_hole r x y = true := by
          by_contra hh
          rw [if_pos hh] at h255
          omega
        refine ⟨by omega, ?_⟩
        intro xx yy h1 h2 h3 h4 hd hv
        rw [SelectionMask.at_eq_unchecked h1 h2 h3 h4] at hv
        exact hnohole ((shrink_hole_iff hr0 hx0 hx hy0 hy).mpr
          ⟨xx, yy, h1, h2, h3, h4, hd, hv⟩)
    · rintro ⟨hpos, hall⟩
      have hnh : ¬ m.shrink_hole r x y = true := by
        intro hh
        rcases (shrink_hole_iff hr0 hx0 hx hy0 hy).mp hh with
          ⟨xx, yy, h1, h2, h3, h4, hd, hv⟩
        exact hall xx yy h1 h2 h3 h4 hd
          (by rw [SelectionMask.at_eq_unchecked h1 h2 h3 h4]; exact hv)
      rw [if_neg (by omega), if_neg hnh]

set_option maxRecDepth 100000 in
/-- For a fully opaque source (`sa = 1.0f` exactly, opacity 100) over
the blank destination, one mixed channel round-trips byte-exactly: the
dead `dst`-side products are zero, the division by `out_alpha = 1.0f` is
exact, and `trunc(rnd32(rnd32(v/255) * 255)) = v` for every byte.
Checked for all 256 byte values by kernel evaluation. -/
theorem c4_channel_roundtrip :
    ∀ v : Nat, v < 256 →
      to_byte (mix_channel (to_float v) (src_alpha 255 100)
        (to_float 0) (to_float 0)) = v := by
  decide

set_option maxRecDepth 100000 in
/-- Claim C4 counterexamples.  (1) A fully transparent source pixel with
nonzero color bytes (10, 20, 30, alpha 0) skips the `out_alpha > 0`
branch and leaves the blank destination at (0,0,0,0), so the source
bytes do not survive.  (2) Binary32 rounding: source (11, 0, 0, alpha 3)
over the blank destination yields red byte 10, not 11 — `fl(fl(11/255) *
sa) / sa` lands one ulp below `fl(11/255)`, and the final `* 255.0f`
then truncates to 10. -/
theorem claim_C4_counterexample :
    (blend_pixel { r := 10, g := 20, b := 30, a := 0 }
        { r := 0, g := 0, b := 0, a := 0 } 100 BlendMode.Normal =
      { r := 0, g := 0, b := 0, a := 0 } ∧
     blend_pixel { r := 10, g := 20, b := 30, a := 0 }
        { r := 0, g := 0, b := 0, a := 0 } 100 BlendMode.Normal ≠
      { r := 10, g := 20, b := 30, a := 0 }) ∧
    (blend_pixel { r := 11, g := 0, b := 0, a := 3 }
        { r := 0, g := 0, b := 0, a := 0 } 100 BlendMode.Normal =
      { r := 10, g := 0, b := 0, a := 3 } ∧
     blend_pixel { r := 11, g := 0, b := 0, a := 3 }
        { r := 0, g := 0, b := 0, a := 0 } 100 BlendMode.Normal ≠
      { r := 11, g := 0, b := 0, a := 3 }) := by
  decide

set_option maxRecDepth 100000 in
/-- Claim C4 (amended): blend mode Normal at opacity 100 over a blank
(0,0,0,0) destination returns exactly the source pixel's four RGBA bytes
when the source is fully opaque (alpha byte 255).  A source with alpha 0
leaves the destination unchanged instead, and for intermediate alphas
the binary32 quotient `fl(fl(src/255) * sa) / sa` can land one ulp below
`fl(src/255)`, making a color byte come back one lower. -/
theorem claim_C4_normal_over_blank (r g b : Nat)
    (hr : r ≤ 255) (hg : g ≤ 255) (hb : b ≤ 255) :
    blend_pixel { r := r, g := g, b := b, a := 255 }
        { r := 0, g := 0, b := 0, a := 0 } 100 BlendMode.Normal =
      { r := r, g := g, b := b, a := 255 } := by
  have hcond : F32.blt f32zero
      (out_alpha (src_alpha 255 100) (to_float 0)) = true := by
    decide
  have halpha : to_byte (out_alpha (src_alpha 255 100) (to_float 0)) = 255 := by
    decide
  rw [blend_pixel]
  dsimp only
  rw [if_pos hcond]
  simp only [blend_channel]
  rw [RGBA.mk.injEq]
  exact ⟨c4_channel_roundtrip r (by omega), c4_channel_roundtrip g (by omega),
    c4_channel_roundtrip b (by omega), halpha⟩

/-- Claim C4 witness at a concrete opaque source pixel. -/
theorem claim_C4_witness :
    blend_pixel { r := 10, g := 20, b := 30, a := 255 }
        { r := 0, g := 0, b := 0, a := 0 } 100 BlendMode.Normal =
      { r := 10, g := 20, b := 30, a := 255 } :=
  claim_C4_normal_over_blank 10 20 30 (by decide) (by decide) (by decide)

/-- Claim C8: when the red/green/blue (or alpha) input layers' sizes do
not all match, `merge_channels_to_layer` totally returns the degenerate
1×1 zero-filled layer named "Merged" (no error path exists; the inputs are
taken by `const` reference and the function builds only fresh layers, so
no input layer is modified). -/
theorem claim_C8_merge_mismatch_placeholder
    (red green blue : Layer) (alpha : Option Layer)
    (h : (green.size.width ≠ red.size.width ∨
          green.size.height ≠ red.size.height ∨
          blue.size.width ≠ red.size.width ∨
          blue.size.height ≠ red.size.height) ∨
         alpha_mismatch red.size alpha = true) :
    merge_channels_to_layer red green blue alpha =
      Layer.ofSize { width := 1, height := 1 } "Merged" ∧
    (merge_channels_to_layer red green blue alpha).name = "Merged" ∧
    (merge_channels_to_layer red green blue alpha).size =
      { width := 1, height := 1 } := by
  have hmain : merge_channels_to_layer red green blue alpha =
      Layer.ofSize { width := 1, height := 1 } "Merged" := by
    rcases h with h | h
    · rw [merge_channels_to_layer, if_pos h]
    · rw [merge_channels_to_layer]
      by_cases h1 : green.size.width ≠ red.size.width ∨
          green.size.height ≠ red.size.height ∨
          blue.size.width ≠ red.size.width ∨
          blue.size.height ≠ red.size.height
      · rw [if_pos h1]
      · rw [if_neg h1, if_pos h]
  exact ⟨hmain, by rw [hmain]; rfl, by rw [hmain]; rfl⟩

/-- Claim C8 witness: a 2×2 red layer with a 1×2 green layer. -/
theorem claim_C8_witness :
    merge_channels_to_layer (Layer.ofSize { width := 2, height := 2 } "Red")
        (Layer.ofSize { width := 1, height := 2 } "Green")
        (Layer.ofSize { width := 2, height := 2 } "Blue") none =
      Layer.ofSize { width := 1, height := 1 } "Merged" ∧
    (merge_channels_to_layer (Layer.ofSize { width := 2, height := 2 } "Red")
        (Layer.ofSize { width := 1, height := 2 } "Green")
        (Layer.ofSize { width := 2, height := 2 } "Blue") none).name = "Merged" ∧
    (merge_channels_to_layer (Layer.ofSize { width := 2, height := 2 } "Red")
        (Layer.ofSize { width := 1, height := 2 } "Green")
        (Layer.ofSize { width := 2, height := 2 } "Blue") none).size =
      { width := 1, height := 1 } :=
  claim_C8_merge_mismatch_placeholder _ _ _ _ (Or.inl (by norm_num [Layer.ofSize]))

/-! ## List helper lemmas for the undo-stack proofs -/

theorem set_getD_self {α : Type} (l : List α) (i : Nat) (d : α)
    (h : i < l.length) : l.set i (l.getD i d) = l := by
  rw [List.getD_eq_getElem l d h]
  induction l generalizing i with
  | nil => simp at h
  | cons x xs ih =>
    cases i with
    | zero => rfl
    | succ n =>
      simp only [List.set_cons_succ, List.getElem_cons_succ, List.cons.injEq,
        true_and]
      exact ih n (by simpa using h)

theorem getD_append_cons {α : Type} (l t : List α) (a d : α) :
    (l ++ a :: t).getD l.length d = a := by
  induction l with
  | nil => rfl
  | cons x xs ih => simpa using ih

theorem trim_inv {s : UndoStack} (h : s.current_index ≤ s.commands.length) :
    (trim_to_max_depth s).current_index ≤
      (trim_to_max_depth s).commands.length := by
  rw [trim_to_max_depth]
  split
  · exact h
  · exact min_le_right _ _

theorem applyOp_inv (st : EditorState) (op : StackOp) (h : StackInv st) :
    StackInv (applyOp st op) := by
  have h' : st.stack.current_index ≤ st.stack.commands.length := h
  cases op with
  | push spec =>
    show StackInv (push st spec)
    rw [push]
    cases hexec : executeStored { spec := spec, saved_channels := [] } st.doc with
    | none => exact h
    | some p => exact trim_inv le_rfl
  | undo =>
    show StackInv (undo st)
    rw [undo]
    split
    · show st.stack.current_index - 1 ≤ st.stack.commands.length
      omega
    · exact h
  | redo =>
    show StackInv (redo st)
    rw [redo]
    split
    · rename_i hlt
      cases hexec : executeStored
          (st.stack.commands.getD st.stack.current_index dummyCmd) st.doc with
      | none => exact h
      | some p =>
        show _ + 1 ≤ (st.stack.commands.set _ _).length
        rw [List.length_set]
        omega
    · exact h
  | clear => exact Nat.zero_le _
  | setMaxDepth d =>
    show StackInv (set_max_depth st d)
    exact trim_inv h

theorem applyOps_inv (ops : List StackOp) (st : EditorState) (h : StackInv st) :
    StackInv (applyOps ops st) := by
  induction ops generalizing st with
  | nil => exact h
  | cons op rest ih =>
    exact ih (applyOp st op) (applyOp_inv st op h)

/-- Claim C3: after any sequence of `push`/`undo`/`redo`/`clear`/
`set_max_depth` operations from a freshly constructed stack (or from any
state satisfying it), `0 ≤ current_index ≤ commands.size()` holds, and
`undo()` at `current_index == 0` and `redo()` at
`current_index == commands.size()` are silent no-ops leaving the whole
state (stack and document) unchanged. -/
theorem claim_C3_invariant_and_noops :
    (∀ (ops : List StackOp) (depth : Nat) (doc : ImageDocument),
      StackInv (applyOps ops (freshState depth doc))) ∧
    (∀ (ops : List StackOp) (st : EditorState), StackInv st →
      StackInv (applyOps ops st)) ∧
    (∀ st : EditorState, st.stack.current_index = 0 → undo st = st) ∧
    (∀ st : EditorState,
      st.stack.current_index = st.stack.commands.length → redo st = st) := by
  refine ⟨?_, applyOps_inv, ?_, ?_⟩
  · intro ops depth doc
    exact applyOps_inv ops _ (Nat.zero_le _)
  · intro st h0
    rw [undo, if_neg]
    intro hc
    omega
  · intro st hend
    rw [redo, if_neg]
    omega

/-- Claim C3 witness: the invariant after a concrete operation sequence,
and the two no-ops at a concrete state. -/
theorem claim_C3_witness :
    (StackInv (applyOps
      [StackOp.push (.selection (SelectionMask.ofSize { width := 1, height := 1 })
          ((SelectionMask.ofSize { width := 1, height := 1 }).fill 9)),
       StackOp.undo, StackOp.redo, StackOp.setMaxDepth 0, StackOp.clear]
      (freshState 3
        { size := { width := 1, height := 1 }, mode := .RGB, channels := [],
          selection := SelectionMask.ofSize { width := 1, height := 1 } }))) ∧
    (undo (freshState 3
        { size := { width := 1, height := 1 }, mode := .RGB, channels := [],
          selection := SelectionMask.ofSize { width := 1, height := 1 } }) =
      freshState 3
        { size := { width := 1, height := 1 }, mode := .RGB, channels := [],
          selection := SelectionMask.ofSize { width := 1, height := 1 } }) ∧
    (redo (freshState 3
        { size := { width := 1, height := 1 }, mode := .RGB, channels := [],
          selection := SelectionMask.ofSize { width := 1, height := 1 } }) =
      freshState 3
        { size := { width := 1, height := 1 }, mode := .RGB, channels := [],
          selection := SelectionMask.ofSize { width := 1, height := 1 } }) :=
  ⟨claim_C3_invariant_and_noops.1 _ 3 _,
   claim_C3_invariant_and_noops.2.2.1 _ rfl,
   claim_C3_invariant_and_noops.2.2.2 _ rfl⟩

/-! ## Claims C1 and C2: command round trips and eviction -/

/-- Undoing the backups a `FillCommand`/`ClearCommand` saved restores the
channel list exactly, from any document whose channels equal the
post-execute ones. -/
theorem restore_after_memset (doc : ImageDocument) (idx v : Nat)
    (h : idx < doc.channels.length)
    (doc₃ : ImageDocument)
    (hch : doc₃.channels = (memset_channel doc idx v).channels) :
    (restore_channels (save_channel doc idx []) doc₃).channels =
      doc.channels := by
  rw [save_channel, if_pos h]
  rw [restore_channels]
  rw [List.nil_append, List.foldl_cons, List.foldl_nil]
  rw [restore_backup]
  rw [memset_channel] at hch
  have hlen : doc₃.channels.length = doc.channels.length := by
    rw [hch, List.length_set]
  rw [if_pos (by dsimp only; omega)]
  show doc₃.channels.set idx _ = doc.channels
  rw [hch]
  have hM : (doc.channels.set idx
      (let ch := doc.channels.getD idx dummyChannel
       { ch with buffer :=
          { ch.buffer with
            pixels := List.replicate ch.buffer.pixels.length v } })).getD idx
        dummyChannel =
      (let ch := doc.channels.getD idx dummyChannel
       { ch with buffer :=
          { ch.buffer with
            pixels := List.replicate ch.buffer.pixels.length v } }) := by
    rw [List.getD_eq_getElem _ _ (by rw [List.length_set]; exact h)]
    exact List.getElem_set_self _
  rw [hM]
  rw [List.set_set]
  show doc.channels.set idx
      { (doc.channels.getD idx dummyChannel) with buffer :=
        { (doc.channels.getD idx dummyChannel).buffer with
          pixels := (doc.channels.getD idx dummyChannel).buffer.pixels ++
            (List.replicate
              (doc.channels.getD idx dummyChannel).buffer.pixels.length
              v).drop
              (doc.channels.getD idx dummyChannel).buffer.pixels.length } } =
    doc.channels
  rw [List.drop_replicate, Nat.sub_self, List.replicate_zero, List.append_nil]
  exact set_getD_self _ _ _ h

/-- The byte-exact round trip of a single command: if `execute` succeeds
(producing stored command `sc` and document `doc₂`), then `sc`'s `undo`
applied to any document whose channels equal `doc₂`'s restores the channel
list to its pre-execute contents. -/
theorem execute_undo_channels {spec : CmdSpec} {doc doc₂ : ImageDocument}
    {sc : StoredCmd}
    (hexec : executeStored { spec := spec, saved_channels := [] } doc =
      some (sc, doc₂))
    (doc₃ : ImageDocument) (hch : doc₃.channels = doc₂.channels) :
    (undoCmd sc doc₃).channels = doc.channels := by
  cases spec with
  | selection before after =>
    simp only [executeStored] at hexec
    rw [Option.some.injEq, Prod.mk.injEq] at hexec
    obtain ⟨hsc, hdoc⟩ := hexec
    rw [← hsc]
    show doc₃.channels = doc.channels
    rw [hch, ← hdoc]
  | fill idx v =>
    simp only [executeStored] at hexec
    split at hexec
    · rw [Option.some.injEq, Prod.mk.injEq] at hexec
      obtain ⟨hsc, hdoc⟩ := hexec
      rw [← hsc]
      show (restore_channels (save_channel doc idx []) doc₃).channels =
        doc.channels
      exact restore_after_memset doc idx v (by assumption) doc₃
        (by rw [hch, ← hdoc])
    · exact absurd hexec (by simp)
  | clear idx =>
    simp only [executeStored] at hexec
    split at hexec
    · rw [Option.some.injEq, Prod.mk.injEq] at hexec
      obtain ⟨hsc, hdoc⟩ := hexec
      rw [← hsc]
      show (restore_channels (save_channel doc idx []) doc₃).channels =
        doc.channels
      exact restore_after_memset doc idx 0 (by assumption) doc₃
        (by rw [hch, ← hdoc])
    · exact absurd hexec (by simp)

theorem getD_drop {α : Type} (l : List α) (n i : Nat) (d : α) :
    (l.drop n).getD i d = l.getD (n + i) d := by
  rw [List.getD_eq_getElem?_getD, List.getD_eq_getElem?_getD, List.getElem?_drop]

theorem trim_eq_of_le {c : List StoredCmd} {i d : Nat} (h : c.length ≤ d) :
    trim_to_max_depth { commands := c, current_index := i, max_depth := d } =
      { commands := c, current_index := i, max_depth := d } := by
  rw [trim_to_max_depth, if_pos h]

theorem trim_eq_of_gt {c : List StoredCmd} {i d : Nat} (h : d < c.length) :
    trim_to_max_depth { commands := c, current_index := i, max_depth := d } =
      { commands := c.drop (c.length - d), current_index := min i d,
        max_depth := d } := by
  rw [trim_to_max_depth, if_neg (show ¬c.length ≤ d by omega)]
  have hl : (c.drop (c.length - d)).length = d := by
    rw [List.length_drop]
    omega
  rw [UndoStack.mk.injEq]
  exact ⟨rfl, by rw [hl], rfl⟩

/-- `undo()` at `current_index == 0` is the identity. -/
theorem undo_of_idx_zero {st : EditorState}
    (h : st.stack.current_index = 0) : undo st = st := by
  rw [undo, if_neg]
  intro hc
  omega

theorem undoN_of_idx_zero {st : EditorState}
    (h : st.stack.current_index = 0) : ∀ k, undoN k st = st := by
  intro k
  induction k with
  | zero => rfl
  | succ n ih => rw [undoN, ih, undo_of_idx_zero h]

theorem undoN_add (m k : Nat) (st : EditorState) :
    undoN (m + k) st = undoN k (undoN m st) := by
  induction k with
  | zero => rfl
  | succ n ih => rw [← Nat.add_assoc, undoN, undoN, ih]

/-- Claim C1, single-command direction: for any starting state with
`max_depth ≥ 1` and any command whose `execute` succeeds, `undo()`
immediately after `push(cmd)` restores the channel list byte-exactly. -/
theorem undo_push_channels (st : EditorState) (spec : CmdSpec)
    (sc : StoredCmd) (doc₂ : ImageDocument) (hmd : 1 ≤ st.stack.max_depth)
    (hexec : executeStored { spec := spec, saved_channels := [] } st.doc =
      some (sc, doc₂)) :
    (undo (push st spec)).doc.channels = st.doc.channels := by
  have hpush : push st spec =
      { stack := trim_to_max_depth
          { commands := st.stack.commands.take st.stack.current_index ++ [sc],
            current_index :=
              (st.stack.commands.take st.stack.current_index ++ [sc]).length,
            max_depth := st.stack.max_depth },
        doc := doc₂ } := by
    rw [push, hexec]
  rw [hpush]
  set T := st.stack.commands.take st.stack.current_index with hT
  have hTlen : (T ++ [sc]).length = T.length + 1 := by simp
  by_cases hle : (T ++ [sc]).length ≤ st.stack.max_depth
  · rw [trim_eq_of_le hle]
    rw [undo, if_pos ⟨show 0 < (T ++ [sc]).length by omega,
      show T ++ [sc] ≠ [] by simp⟩]
    show (undoCmd ((T ++ [sc]).getD ((T ++ [sc]).length - 1) dummyCmd)
      doc₂).channels = st.doc.channels
    rw [hTlen, Nat.add_sub_cancel, getD_append_cons]
    exact execute_undo_channels hexec doc₂ rfl
  · rw [trim_eq_of_gt (by omega)]
    have hmin : min (T ++ [sc]).length st.stack.max_depth =
        st.stack.max_depth := by omega
    have hdlen : ((T ++ [sc]).drop
        ((T ++ [sc]).length - st.stack.max_depth)).length =
        st.stack.max_depth := by
      rw [List.length_drop]
      omega
    rw [undo, if_pos ⟨show 0 < min (T ++ [sc]).length st.stack.max_depth by
        rw [hmin]; omega,
      show (T ++ [sc]).drop ((T ++ [sc]).length - st.stack.max_depth) ≠ [] by
        intro hnil
        rw [hnil] at hdlen
        simp at hdlen
        omega⟩]
    show (undoCmd (((T ++ [sc]).drop
        ((T ++ [sc]).length - st.stack.max_depth)).getD
        (min (T ++ [sc]).length st.stack.max_depth - 1) dummyCmd)
      doc₂).channels = st.doc.channels
    rw [hmin, getD_drop]
    rw [show (T ++ [sc]).length - st.stack.max_depth +
        (st.stack.max_depth - 1) = T.length from by omega]
    rw [getD_append_cons]
    exact execute_undo_channels hexec doc₂ rfl

theorem runStored_length_le (cmds : List CmdSpec) (doc : ImageDocument) :
    (runStored cmds doc).1.length ≤ cmds.length := by
  induction cmds generalizing doc with
  | nil => exact Nat.le_refl _
  | cons c rest ih =>
    rw [runStored]
    cases hexec : executeStored { spec := c, saved_channels := [] } doc with
    | none => exact Nat.le_trans (ih doc) (by rw [List.length_cons]; omega)
    | some p =>
      rw [List.length_cons]
      exact Nat.succ_le_succ (ih p.2)

/-- Undoing, in reverse order, every stored command a `runStored` trace
produced restores the channel list to the trace's starting document, from
any state whose command list ends in that trace with `current_index` at
the end; the command list and `max_depth` are untouched and the index
retreats to the start of the trace. -/
theorem undo_chain (cmds : List CmdSpec) :
    ∀ (doc0 : ImageDocument) (pre : List StoredCmd) (st : EditorState),
    st.stack.commands = pre ++ (runStored cmds doc0).1 →
    st.stack.current_index = pre.length + (runStored cmds doc0).1.length →
    st.doc.channels = (runStored cmds doc0).2.channels →
    (undoN (runStored cmds doc0).1.length st).doc.channels = doc0.channels ∧
    (undoN (runStored cmds doc0).1.length st).stack.commands =
      st.stack.commands ∧
    (undoN (runStored cmds doc0).1.length st).stack.current_index =
      pre.length ∧
    (undoN (runStored cmds doc0).1.length st).stack.max_depth =
      st.stack.max_depth := by
  induction cmds with
  | nil =>
    intro doc0 pre st h1 h2 h3
    have h0 : (runStored [] doc0).1.length = 0 := rfl
    rw [h0] at h2 ⊢
    exact ⟨h3, rfl, by show st.stack.current_index = pre.length; omega, rfl⟩
  | cons c rest ih =>
    intro doc0 pre st h1 h2 h3
    cases hexec : executeStored { spec := c, saved_channels := [] } doc0 with
    | none =>
      have hrun : runStored (c :: rest) doc0 = runStored rest doc0 := by
        rw [runStored, hexec]
      rw [hrun] at h1 h2 h3 ⊢
      exact ih doc0 pre st h1 h2 h3
    | some p =>
      obtain ⟨sc, doc₁⟩ := p
      have hrun : runStored (c :: rest) doc0 =
          (sc :: (runStored rest doc₁).1, (runStored rest doc₁).2) := by
        rw [runStored, hexec]
      rw [hrun] at h1 h2 h3 ⊢
      rw [List.length_cons] at h2 ⊢
      show (undoN ((runStored rest doc₁).1.length + 1) st).doc.channels =
          doc0.channels ∧ _ ∧ _ ∧ _
      rw [show (runStored rest doc₁).1.length + 1 =
        (runStored rest doc₁).1.length + 1 from rfl]
      have hmid := ih doc₁ (pre ++ [sc]) st
        (by rw [h1, List.append_assoc, List.singleton_append])
        (by rw [List.length_append, List.length_singleton]; omega)
        h3
      obtain ⟨hm1, hm2, hm3, hm4⟩ := hmid
      rw [undoN]
      set A := undoN (runStored rest doc₁).1.length st with hA
      have hAidx : A.stack.current_index = pre.length + 1 := by
        rw [hm3, List.length_append, List.length_singleton]
      have hAcmds : A.stack.commands = pre ++ sc :: (runStored rest doc₁).1 := by
        rw [hm2, h1]
      have hAne : A.stack.commands ≠ [] := by
        rw [hAcmds]
        intro hnil
        have := congrArg List.length hnil
        simp at this
      rw [undo, if_pos ⟨by omega, hAne⟩]
      refine ⟨?_, ?_, ?_, ?_⟩
      · show (undoCmd (A.stack.commands.getD (A.stack.current_index - 1)
          dummyCmd) A.doc).channels = doc0.channels
        rw [hAidx, Nat.add_sub_cancel, hAcmds, getD_append_cons]
        exact execute_undo_channels hexec A.doc hm1
      · show A.stack.commands = st.stack.commands
        rw [hAcmds, h1]
      · show A.stack.current_index - 1 = pre.length
        omega
      · show A.stack.max_depth = st.stack.max_depth
        exact hm4

theorem pushAll_cons (st : EditorState) (c : CmdSpec) (rest : List CmdSpec) :
    pushAll st (c :: rest) = pushAll (push st c) rest := rfl

/-- Pushing a command list with room to spare (no trims): the stored trace
is appended, the index tracks the length, and the document follows the
trace. -/
theorem push_run_no_trim (cmds : List CmdSpec) :
    ∀ st : EditorState,
    st.stack.current_index = st.stack.commands.length →
    st.stack.commands.length + cmds.length ≤ st.stack.max_depth →
    (pushAll st cmds).stack.commands =
      st.stack.commands ++ (runStored cmds st.doc).1 ∧
    (pushAll st cmds).stack.current_index =
      st.stack.commands.length + (runStored cmds st.doc).1.length ∧
    (pushAll st cmds).stack.max_depth = st.stack.max_depth ∧
    (pushAll st cmds).doc = (runStored cmds st.doc).2 := by
  induction cmds with
  | nil =>
    intro st h1 h2
    exact ⟨by simp [pushAll, runStored], by simp [pushAll, runStored, h1],
      rfl, rfl⟩
  | cons c rest ih =>
    intro st h1 h2
    rw [List.length_cons] at h2
    cases hexec : executeStored { spec := c, saved_channels := [] } st.doc with
    | none =>
      have hp : push st c = st := by rw [push, hexec]
      have hrun : runStored (c :: rest) st.doc = runStored rest st.doc := by
        rw [runStored, hexec]
      rw [pushAll_cons, hp, hrun]
      exact ih st h1 (by omega)
    | some p =>
      obtain ⟨sc, doc'⟩ := p
      have htake : st.stack.commands.take st.stack.current_index =
          st.stack.commands := by
        rw [h1]
        exact List.take_length _
      have hp0 : push st c =
          { stack := trim_to_max_depth
              { commands :=
                  st.stack.commands.take st.stack.current_index ++ [sc],
                current_index :=
                  (st.stack.commands.take st.stack.current_index ++ [sc]).length,
                max_depth := st.stack.max_depth },
            doc := doc' } := by
        rw [push, hexec]
      have hp : push st c =
          { stack :=
              { commands := st.stack.commands ++ [sc],
                current_index := (st.stack.commands ++ [sc]).length,
                max_depth := st.stack.max_depth },
            doc := doc' } := by
        rw [hp0, htake,
          trim_eq_of_le (by rw [List.length_append, List.length_singleton]; omega)]
      have hrun : runStored (c :: rest) st.doc =
          (sc :: (runStored rest doc').1, (runStored rest doc').2) := by
        rw [runStored, hexec]
      rw [pushAll_cons, hp, hrun]
      have hmid := ih
        { stack :=
            { commands := st.stack.commands ++ [sc],
              current_index := (st.stack.commands ++ [sc]).length,
              max_depth := st.stack.max_depth }, doc := doc' }
        rfl
        (by show (st.stack.commands ++ [sc]).length + rest.length ≤
              st.stack.max_depth
            rw [List.length_append, List.length_singleton]
            omega)
      obtain ⟨hc1, hc2, hc3, hc4⟩ := hmid
      refine ⟨?_, ?_, hc3, hc4⟩
      · rw [hc1]
        show st.stack.commands ++ [sc] ++ (runStored rest doc').1 =
          st.stack.commands ++ sc :: (runStored rest doc').1
        rw [List.append_assoc, List.singleton_append]
      · rw [hc2]
        show (st.stack.commands ++ [sc]).length +
            (runStored rest doc').1.length =
          st.stack.commands.length + (sc :: (runStored rest doc').1).length
        rw [List.length_append, List.length_singleton, List.length_cons]
        omega

/-- Pushing a command list from a consistent state, trims included: the
final command list is the tail of the accumulated trace that fits in
`max_depth`, the index is clamped, and the document follows the trace. -/
theorem push_run (cmds : List CmdSpec) :
    ∀ st : EditorState,
    st.stack.current_index = st.stack.commands.length →
    st.stack.commands.length ≤ st.stack.max_depth →
    (pushAll st cmds).stack.commands =
      (st.stack.commands ++ (runStored cmds st.doc).1).drop
        ((st.stack.commands ++ (runStored cmds st.doc).1).length -
          min (st.stack.commands ++ (runStored cmds st.doc).1).length
            st.stack.max_depth) ∧
    (pushAll st cmds).stack.current_index =
      min (st.stack.commands.length + (runStored cmds st.doc).1.length)
        st.stack.max_depth ∧
    (pushAll st cmds).stack.max_depth = st.stack.max_depth ∧
    (pushAll st cmds).doc = (runStored cmds st.doc).2 := by
  induction cmds with
  | nil =>
    intro st h1 h2
    refine ⟨?_, ?_, rfl, rfl⟩
    · show st.stack.commands = _
      rw [show (runStored [] st.doc).1 = [] from rfl, List.append_nil]
      rw [Nat.min_eq_left h2, Nat.sub_self, List.drop_zero]
    · show st.stack.current_index = _
      rw [show (runStored [] st.doc).1.length = 0 from rfl, Nat.add_zero,
        Nat.min_eq_left h2, h1]
  | cons c rest ih =>
    intro st h1 h2
    cases hexec : executeStored { spec := c, saved_channels := [] } st.doc with
    | none =>
      have hp : push st c = st := by rw [push, hexec]
      have hrun : runStored (c :: rest) st.doc = runStored rest st.doc := by
        rw [runStored, hexec]
      rw [pushAll_cons, hp, hrun]
      exact ih st h1 h2
    | some p =>
      obtain ⟨sc, doc'⟩ := p
      have htake : st.stack.commands.take st.stack.current_index =
          st.stack.commands := by
        rw [h1]
        exact List.take_length _
      have hrun : runStored (c :: rest) st.doc =
          (sc :: (runStored rest doc').1, (runStored rest doc').2) := by
        rw [runStored, hexec]
      set L := st.stack.commands.length with hL
      set S := (runStored rest doc').1 with hS
      set D := st.stack.max_depth with hD
      have hp0 : push st c =
          { stack := trim_to_max_depth
              { commands :=
                  st.stack.commands.take st.stack.current_index ++ [sc],
                current_index :=
                  (st.stack.commands.take st.stack.current_index ++ [sc]).length,
                max_depth := st.stack.max_depth },
            doc := doc' } := by
        rw [push, hexec]
      by_cases hcase : L + 1 ≤ D
      · -- this push does not trim
        have hp : push st c =
            { stack :=
                { commands := st.stack.commands ++ [sc],
                  current_index := (st.stack.commands ++ [sc]).length,
                  max_depth := D },
              doc := doc' } := by
          rw [hp0, htake, trim_eq_of_le
            (by rw [List.length_append, List.length_singleton]; omega)]
        rw [pushAll_cons, hp, hrun]
        have hmid := ih
          { stack :=
              { commands := st.stack.commands ++ [sc],
                current_index := (st.stack.commands ++ [sc]).length,
                max_depth := D }, doc := doc' }
          rfl
          (by show (st.stack.commands ++ [sc]).length ≤ D
              rw [List.length_append, List.length_singleton]
              omega)
        obtain ⟨hc1, hc2, hc3, hc4⟩ := hmid
        refine ⟨?_, ?_, hc3, hc4⟩
        · rw [hc1]
          rw [List.append_assoc, List.singleton_append]
        · rw [hc2]
          have harith : (st.stack.commands ++ [sc]).length + S.length =
              st.stack.commands.length + (sc :: S).length := by
            rw [List.length_append, List.length_singleton, List.length_cons]
            omega
          rw [harith]
      · -- this push evicts the oldest command (L = D)
        have hLd : L = D := by omega
        have hp : push st c =
            { stack :=
                { commands :=
                    (st.stack.commands ++ [sc]).drop
                      ((st.stack.commands ++ [sc]).length - D),
                  current_index := min (st.stack.commands ++ [sc]).length D,
                  max_depth := D },
              doc := doc' } := by
          rw [hp0, htake, trim_eq_of_gt
            (by rw [List.length_append, List.length_singleton]; omega)]
        have hLD : L = D := by omega
        have hlapp : (st.stack.commands ++ [sc]).length = L + 1 := by
          rw [List.length_append, List.length_singleton]
        have hcmds1 : (push st c).stack.commands =
            (st.stack.commands ++ [sc]).drop
              ((st.stack.commands ++ [sc]).length - D) := by
          rw [hp]
        have hidx1 : (push st c).stack.current_index =
            min (st.stack.commands ++ [sc]).length D := by
          rw [hp]
        have hdoc1 : (push st c).doc = doc' := by
          rw [hp]
        have hdep1 : (push st c).stack.max_depth = D := by
          rw [hp]
        have hmid := ih (push st c)
          (by rw [hidx1, hcmds1, List.length_drop, hlapp]
              omega)
          (by rw [hcmds1, hdep1, List.length_drop, hlapp]
              omega)
        rw [hcmds1, hdoc1, hdep1] at hmid
        obtain ⟨hc1, hc2, hc3, hc4⟩ := hmid
        rw [pushAll_cons, hrun]
        have hS1 : (sc :: S, (runStored rest doc').2).1 = sc :: S := rfl
        have hS2 : (sc :: S, (runStored rest doc').2).2 =
            (runStored rest doc').2 := rfl
        rw [hS1, hS2]
        refine ⟨?_, ?_, hc3, hc4⟩
        · rw [hc1]
          have hXlen : ((st.stack.commands ++ [sc]).drop
              ((st.stack.commands ++ [sc]).length - D) ++ S).length =
              D + S.length := by
            rw [List.length_append, List.length_drop, hlapp]
            omega
          rw [hXlen]
          rw [show D + S.length - min (D + S.length) D = S.length from by omega]
          rw [← List.drop_append_of_le_length
            (show (st.stack.commands ++ [sc]).length - D ≤
              (st.stack.commands ++ [sc]).length from by omega)]
          rw [List.drop_drop]
          rw [List.append_assoc, List.singleton_append]
          have hYlen : (st.stack.commands ++ sc :: S).length =
              L + (S.length + 1) := by
            rw [List.length_append, List.length_cons]
          rw [hYlen, hlapp]
          rw [show L + 1 - D + S.length =
            L + (S.length + 1) - min (L + (S.length + 1)) D from by omega]
        · rw [hc2]
          rw [List.length_drop, hlapp, List.length_cons]
          omega

/-- Claim C1 counterexample: with `max_depth = 1`, two pushes
(`Fill(0, 7)` then `Fill(0, 3)`) evict the first command, so two undos do
NOT restore the original channel bytes — the document is left at the first
fill's result `[7, 7, 7]`, not the original `[0, 0, 0]`. -/
theorem claim_C1_counterexample :
    (undoN 2 (pushAll (freshState 1 c1doc)
      [CmdSpec.fill 0 7, CmdSpec.fill 0 3])).doc.channels ≠ c1doc.channels ∧
    ((undoN 2 (pushAll (freshState 1 c1doc)
      [CmdSpec.fill 0 7, CmdSpec.fill 0 3])).doc.channels.map
        (fun ch => ch.buffer.pixels)) = [[7, 7, 7]] ∧
    c1doc.channels.map (fun ch => ch.buffer.pixels) = [[0, 0, 0]] := by
  decide

/-- Claim C1 (amended): (i) `undo()` immediately after a successfully
executing `push(cmd)` restores the channel buffers byte-exactly, for any
starting state with `max_depth ≥ 1`; (ii) N pushes followed by N undos
from a fresh stack restore the channel buffers byte-exactly, provided
`N ≤ max_depth` (so no command is evicted). -/
theorem claim_C1_round_trip :
    (∀ (st : EditorState) (spec : CmdSpec) (sc : StoredCmd)
        (doc₂ : ImageDocument),
      1 ≤ st.stack.max_depth →
      executeStored { spec := spec, saved_channels := [] } st.doc =
        some (sc, doc₂) →
      (undo (push st spec)).doc.channels = st.doc.channels) ∧
    (∀ (cmds : List CmdSpec) (doc0 : ImageDocument) (depth : Nat),
      cmds.length ≤ depth →
      (undoN cmds.length
        (pushAll (freshState depth doc0) cmds)).doc.channels =
        doc0.channels) := by
  refine ⟨undo_push_channels, ?_⟩
  intro cmds doc0 depth hlen
  obtain ⟨hr1, hr2, hr3, hr4⟩ :=
    push_run_no_trim cmds (freshState depth doc0) rfl
      (by show 0 + cmds.length ≤ depth; omega)
  have hSle : (runStored cmds doc0).1.length ≤ cmds.length :=
    runStored_length_le cmds doc0
  have hchain := undo_chain cmds doc0 []
    (pushAll (freshState depth doc0) cmds) hr1 hr2
    (congrArg ImageDocument.channels hr4)
  obtain ⟨hu1, hu2, hu3, hu4⟩ := hchain
  rw [show cmds.length = (runStored cmds doc0).1.length +
    (cmds.length - (runStored cmds doc0).1.length) from by omega]
  rw [undoN_add]
  rw [undoN_of_idx_zero hu3]
  exact hu1

/-- Claim C1 witness: a successful single push/undo round trip at a
concrete state, and a concrete 2-push/2-undo round trip within
`max_depth = 5`. -/
theorem claim_C1_witness :
    (undo (push (freshState 5 c1doc) (CmdSpec.fill 0 7))).doc.channels =
      (freshState 5 c1doc).doc.channels ∧
    (undoN 2 (pushAll (freshState 5 c1doc)
      [CmdSpec.fill 0 7, CmdSpec.fill 0 3])).doc.channels =
      c1doc.channels :=
  ⟨claim_C1_round_trip.1 (freshState 5 c1doc) (CmdSpec.fill 0 7)
      { spec := CmdSpec.fill 0 7,
        saved_channels := [{ index := 0,
                             buffer := { size := { width := 1, height := 1 },
                                         format := .RGB8,
                                         pixels := [0, 0, 0] } }] }
      { size := { width := 1, height := 1 }, mode := .RGB,
        channels := [{ name := "Red",
                       buffer := { size := { width := 1, height := 1 },
                                   format := .RGB8,
                                   pixels := [7, 7, 7] } }],
        selection := SelectionMask.ofSize { width := 1, height := 1 } }
      (by decide) (by decide),
   claim_C1_round_trip.2 [CmdSpec.fill 0 7, CmdSpec.fill 0 3] c1doc 5
      (by decide)⟩

/-- Claim C2: pushing `max_depth + 1` successfully executing commands onto
a fresh stack of depth `d ≥ 1` evicts the oldest: afterwards
`undo_count() = d`, `current_index` equals the (clamped) command count,
and undoing all the way back to index 0 leaves the channel buffers in the
state produced by the very first command — its effect is not restored. -/
theorem claim_C2_eviction (c0 : CmdSpec) (rest : List CmdSpec)
    (doc0 : ImageDocument) (d : Nat) (hd : 1 ≤ d) (hlen : rest.length = d)
    (hall : (runStored (c0 :: rest) doc0).1.length = d + 1) :
    (pushAll (freshState d doc0) (c0 :: rest)).stack.undo_count = d ∧
    (pushAll (freshState d doc0) (c0 :: rest)).stack.current_index =
      (pushAll (freshState d doc0) (c0 :: rest)).stack.commands.length ∧
    (undoN d (pushAll (freshState d doc0) (c0 :: rest))).doc.channels =
      (runStored [c0] doc0).2.channels ∧
    (undoN d
      (pushAll (freshState d doc0) (c0 :: rest))).stack.current_index = 0 := by
  cases hexec : executeStored { spec := c0, saved_channels := [] } doc0 with
  | none =>
    exfalso
    have hle := runStored_length_le rest doc0
    have hskip : runStored (c0 :: rest) doc0 = runStored rest doc0 := by
      rw [runStored, hexec]
    rw [hskip] at hall
    omega
  | some p =>
    obtain ⟨sc0, doc1⟩ := p
    have hrun : runStored (c0 :: rest) doc0 =
        (sc0 :: (runStored rest doc1).1, (runStored rest doc1).2) := by
      rw [runStored, hexec]
    have hSlen : (runStored rest doc1).1.length = d := by
      rw [hrun] at hall
      simpa using hall
    obtain ⟨hr1, hr2, hr3, hr4⟩ :=
      push_run (c0 :: rest) (freshState d doc0) rfl (Nat.zero_le _)
    have hdoc0 : (freshState d doc0).doc = doc0 := rfl
    rw [hdoc0] at hr1 hr2 hr4
    rw [hrun] at hr1 hr2 hr4
    have hproj1 : (sc0 :: (runStored rest doc1).1,
        (runStored rest doc1).2).1 = sc0 :: (runStored rest doc1).1 := rfl
    have hproj2 : (sc0 :: (runStored rest doc1).1,
        (runStored rest doc1).2).2 = (runStored rest doc1).2 := rfl
    rw [hproj1] at hr1 hr2
    rw [hproj2] at hr4
    have hnil : (freshState d doc0).stack.commands = [] := rfl
    rw [hnil, List.nil_append] at hr1
    rw [hnil] at hr2
    have hfr : (freshState d doc0).stack.max_depth = d := rfl
    rw [hfr] at hr1 hr2 hr3
    rw [List.length_cons, hSlen] at hr1 hr2
    rw [show d + 1 - min (d + 1) d = 1 from by omega] at hr1
    rw [List.drop_succ_cons, List.drop_zero] at hr1
    rw [show List.length [] + (d + 1) = d + 1 from by simp,
      show min (d + 1) d = d from by omega] at hr2
    refine ⟨?_, ?_, ?_, ?_⟩
    · show (pushAll (freshState d doc0) (c0 :: rest)).stack.current_index = d
      exact hr2
    · rw [hr2, hr1, hSlen]
    · have hchain := undo_chain rest doc1 []
        (pushAll (freshState d doc0) (c0 :: rest))
        (by rw [hr1]; rfl)
        (by rw [hr2, hSlen]; simp)
        (congrArg ImageDocument.channels hr4)
      rw [hSlen] at hchain
      rw [show runStored [c0] doc0 = ([sc0], doc1) from by
        rw [runStored, hexec]
        rfl]
      exact hchain.1
    · have hchain := undo_chain rest doc1 []
        (pushAll (freshState d doc0) (c0 :: rest))
        (by rw [hr1]; rfl)
        (by rw [hr2, hSlen]; simp)
        (congrArg ImageDocument.channels hr4)
      rw [hSlen] at hchain
      exact hchain.2.2.1

/-- Claim C2 witness: depth 1, two fills; after both pushes
`undo_count = 1`, and the single undo leaves the channel at the first
fill's bytes. -/
theorem claim_C2_witness :
    (pushAll (freshState 1 c1doc)
      [CmdSpec.fill 0 7, CmdSpec.fill 0 3]).stack.undo_count = 1 ∧
    (pushAll (freshState 1 c1doc)
      [CmdSpec.fill 0 7, CmdSpec.fill 0 3]).stack.current_index =
      (pushAll (freshState 1 c1doc)
        [CmdSpec.fill 0 7, CmdSpec.fill 0 3]).stack.commands.length ∧
    (undoN 1 (pushAll (freshState 1 c1doc)
      [CmdSpec.fill 0 7, CmdSpec.fill 0 3])).doc.channels =
      (runStored [CmdSpec.fill 0 7] c1doc).2.channels ∧
    (undoN 1 (pushAll (freshState 1 c1doc)
      [CmdSpec.fill 0 7, CmdSpec.fill 0 3])).stack.current_index = 0 :=
  claim_C2_eviction (CmdSpec.fill 0 7) [CmdSpec.fill 0 3] c1doc 1
    (by decide) (by decide) (by decide)

/-- Claim C5: the magic wand's breadth-first 4-connected flood fill with
the `Σ|Δchannel| ≤ tolerance` inclusion test, run on the half-red/half-blue
4×4 RGB document with tolerance 10 seeded at the red pixel (0,0),
terminates (the `some`) and selects exactly the 8 red pixels and no blue
pixel: the resulting mask is byte-for-byte `c5expected`, and a pixel is
selected iff its sampled color is red. -/
theorem claim_C5_magic_wand_scenario :
    magic_wand_begin_stroke c5doc { x := 0, y := 0 } 10 200 =
      some { c5doc with selection := c5expected } ∧
    (c5expected.mask.filter (fun v => v == 255)).length = 8 ∧
    (c5expected.mask.filter (fun v => v == 0)).length = 8 ∧
    (∀ x y : Fin 4,
      (c5expected.at' x.val y.val = 255 ↔
        sample_color c5doc x.val y.val = { r := 255, g := 0, b := 0 })) := by
  refine ⟨by decide, by decide, by decide, by decide⟩

/-- Claim C10 witness at a concrete mask and radius 1. -/
theorem claim_C10_witness :
    let M : SelectionMask :=
      { size := { width := 2, height := 2 }, mask := [0, 255, 0, 0] }
    (∀ v ∈ (M.grow 1).mask, v = 0 ∨ v = 255) ∧
    (∀ v ∈ (M.shrink 1).mask, v = 0 ∨ v = 255) ∧
    (∀ x y : Int, 0 ≤ x → x < M.size.width → 0 ≤ y → y < M.size.height →
      ((M.grow 1).at' x y = 255 ↔
        ∃ xx yy : Int, 0 ≤ xx ∧ xx < M.size.width ∧ 0 ≤ yy ∧ yy < M.size.height ∧
          (xx - x) * (xx - x) + (yy - y) * (yy - y) ≤ 1 * 1 ∧ 0 < M.at' xx yy)) ∧
    (∀ x y : Int, 0 ≤ x → x < M.size.width → 0 ≤ y → y < M.size.height →
      ((M.shrink 1).at' x y = 255 ↔
        (0 < M.at' x y ∧
          ∀ xx yy : Int,
            0 ≤ xx → xx < M.size.width → 0 ≤ yy → yy < M.size.height →
            (xx - x) * (xx - x) + (yy - y) * (yy - y) ≤ 1 * 1 →
            M.at' xx yy ≠ 0))) :=
  claim_C10_grow_shrink_binary _ 1
    (by unfold SelectionMask.WF; decide) (by decide)

end PS

